import Mathlib

/-!
# EpollProject: the epoll echo server

A shallow embedding of `src/common/socket.cpp`, `src/common/epoll.cpp` and
`src/server/server.cpp`, and the properties of the specification proved or
refuted on it.

## The embedding

The C++ objects become structures and every member function becomes a pure
function that takes the object and the state of the operating system (`World`)
and returns the new object, the new `World` and the returned value.  Every
system call is written to `World.trace`; what the kernel answers is an
argument of the function, so that a theorem quantified over the answers speaks
about every behaviour of the operating system.  A `while (true)` loop is a
recursive function over the list of the answers the kernel gives, one element
per iteration; it returns `Outcome.starved` when the list ends before the loop
does, so that a theorem stating `Outcome.done` states that the call returns.

## The kernel

* A system call answers a non-negative value, or fails: it returns `-1` and
  stores the error number in `errno`.
* The interest list of the epoll instance changes through `epoll_ctl` only:
  `EPOLL_CTL_ADD` fails with `EEXIST` on a registered descriptor and otherwise
  as the kernel decides; `EPOLL_CTL_DEL` succeeds exactly on a registered
  descriptor.  `close` is recorded in the trace.
* The constants of the system headers have their Linux values; `sys/epoll.h`
  is a Linux header.

Calls to the logger, `perror` and the peer-identity queries that only feed the
logger are left out: they change neither the objects nor the kernel state
modelled here.
-/

namespace EpollProject

/-! ## Constants of the system headers -/

/-- Value of `EAGAIN` in `errno.h` on Linux, the platform of `sys/epoll.h`
(`asm-generic/errno-base.h`). -/
def EAGAIN : Int := 11

/-- Value of `EWOULDBLOCK`: Linux defines it as `EAGAIN`
(`asm-generic/errno.h`: `#define EWOULDBLOCK EAGAIN`). -/
def EWOULDBLOCK : Int := EAGAIN

/-- Value of `EINTR`. -/
def EINTR : Int := 4

/-- Value of `EEXIST`, the error of `EPOLL_CTL_ADD` on a registered descriptor. -/
def EEXIST : Int := 17

/-- Value of `ENOENT`, the error of `EPOLL_CTL_DEL` on an unregistered descriptor. -/
def ENOENT : Int := 2

/-- Value of `O_NONBLOCK` in `fcntl.h`. -/
def O_NONBLOCK : Nat := 2048

/-- Signal number of `SIGINT`. -/
def SIGINT : Int := 2

/-- Signal number of `SIGTERM`. -/
def SIGTERM : Int := 15

namespace EpollEvents

/-- Readable: `EPOLLIN`. -/
def IN : Nat := 0x001
/-- Writable: `EPOLLOUT`. -/
def OUT : Nat := 0x004
/-- Error condition: `EPOLLERR`. -/
def ERR : Nat := 0x008
/-- Hang up: `EPOLLHUP`. -/
def HUP : Nat := 0x010
/-- Edge triggered: `EPOLLET`. -/
def ET : Nat := 0x80000000
/-- One shot: `EPOLLONESHOT`. -/
def ONESHOT : Nat := 0x40000000

end EpollEvents

/-! ## The operating system -/

/-- One system call, with the arguments the program passed. -/
inductive Syscall where
  | socket
  | setsockopt (fd : Int)
  | fcntl_getfl (fd : Int)
  | fcntl_setfl (fd : Int) (flags : Nat)
  | bind (fd : Int) (port : Int)
  | listen (fd : Int) (backlog : Int)
  | accept (fd : Int)
  | send (fd : Int) (data : List Char) (ret : Int)
  | recv (fd : Int) (size : Nat) (data : List Char) (ret : Int)
  | close (fd : Int)
  | epoll_create1
  | epoll_ctl_add (epfd : Int) (fd : Int) (events : Nat)
  | epoll_ctl_del (epfd : Int) (fd : Int)
  | epoll_wait (epfd : Int)
  deriving DecidableEq

/-- What the kernel answers to a system call: a non-negative value, or failure
(the call returns `-1` and stores the error number in `errno`). -/
inductive SysRet where
  | ok (v : Nat)
  | err (e : Int)
  deriving DecidableEq

/-- The integer the system call returns. -/
def SysRet.val : SysRet → Int
  | .ok v => (v : Int)
  | .err _ => -1

/-- State of the operating system as far as the program can tell: the interest
list of the epoll instance (descriptor and event mask), the system calls made
so far, oldest first, and the thread's `errno`. -/
structure World where
  interest : List (Int × Nat)
  trace : List Syscall
  errno : Int
  deriving DecidableEq

/-- Record a system call. -/
def World.call (w : World) (c : Syscall) : World :=
  { w with trace := w.trace ++ [c] }

/-- A failing system call stores its error number; a successful one leaves
`errno` alone. -/
def World.answer (w : World) (r : SysRet) : World :=
  match r with
  | .ok _ => w
  | .err e => { w with errno := e }

/-- Whether `fd` is in the interest list of the epoll instance. -/
def World.registered (w : World) (fd : Int) : Bool :=
  w.interest.any (fun e => e.1 == fd)

/-- `epoll_create1(0)`: a new instance starts with an empty interest list. -/
def World.epoll_create1 (w : World) (r : SysRet) : Int × World :=
  let w1 := (w.call .epoll_create1).answer r
  match r with
  | .ok _ => (r.val, { w1 with interest := [] })
  | .err _ => (r.val, w1)

/-- `epoll_ctl(epfd, EPOLL_CTL_ADD, fd, &ev)`: fails with `EEXIST` when `fd` is
registered already, fails when the kernel says so (`r`), and otherwise adds
`fd` with the mask `events` to the interest list. -/
def World.epoll_ctl_add (w : World) (epfd fd : Int) (events : Nat) (r : SysRet) :
    Int × World :=
  let w1 := w.call (.epoll_ctl_add epfd fd events)
  if w1.registered fd then (-1, { w1 with errno := EEXIST })
  else
    match r with
    | .ok _ => (0, { w1 with interest := w1.interest ++ [(fd, events)] })
    | .err e => (-1, { w1 with errno := e })

/-- `epoll_ctl(epfd, EPOLL_CTL_DEL, fd, nullptr)`: removes `fd` from the
interest list, and fails with `ENOENT` when it is not there. -/
def World.epoll_ctl_del (w : World) (epfd fd : Int) : Int × World :=
  let w1 := w.call (.epoll_ctl_del epfd fd)
  if w1.registered fd then
    (0, { w1 with interest := w1.interest.filter (fun e => e.1 != fd) })
  else (-1, { w1 with errno := ENOENT })

/-! ## socket.cpp -/

/-- Class `Socket`: the descriptor (`-1`: none) and the blocking-mode flag. -/
structure Socket where
  fd_ : Int
  is_non_blocking_ : Bool
  deriving DecidableEq

namespace Socket

/-- `Socket::Socket()`. -/
def new : Socket := { fd_ := -1, is_non_blocking_ := false }

/-- `Socket::getFd`. -/
def getFd (self : Socket) : Int := self.fd_

/-- `Socket::isValid`. -/
def isValid (self : Socket) : Bool := self.fd_ != -1

/-- `Socket::close`. -/
def close (self : Socket) (w : World) : Socket × World :=
  if self.fd_ != -1 then
    ({ fd_ := -1, is_non_blocking_ := false }, w.call (.close self.fd_))
  else (self, w)

/-- `Socket::~Socket`. -/
def destroy (self : Socket) (w : World) : World :=
  if self.fd_ != -1 then (self.close w).2 else w

/-- Move constructor `Socket(Socket&&)`: the new handle and what is left of
the source. -/
def move (other : Socket) : Socket × Socket :=
  ({ fd_ := other.fd_, is_non_blocking_ := other.is_non_blocking_ },
   { other with fd_ := -1 })

/-- `Socket::createSocket`; `r` answers `socket`, `ropt` answers `setsockopt`. -/
def createSocket (self : Socket) (w : World) (r ropt : SysRet) :
    Bool × Socket × World :=
  let w1 := (w.call .socket).answer r
  let s1 : Socket := { self with fd_ := r.val }
  if s1.fd_ == -1 then (false, s1, w1)
  else
    let w2 := (w1.call (.setsockopt s1.fd_)).answer ropt
    if ropt.val < 0 then
      let (s2, w3) := s1.close w2
      (false, s2, w3)
    else (true, s1, w2)

/-- `Socket::bindSocket`; `r` answers `bind`. -/
def bindSocket (self : Socket) (w : World) (port : Int) (r : SysRet) : Bool × World :=
  if self.fd_ == -1 then (false, w)
  else
    let w1 := (w.call (.bind self.fd_ port)).answer r
    if r.val < 0 then (false, w1) else (true, w1)

/-- `Socket::listenSocket`; `r` answers `listen`. -/
def listenSocket (self : Socket) (w : World) (backlog : Int) (r : SysRet) : Bool × World :=
  if self.fd_ == -1 then (false, w)
  else
    let w1 := (w.call (.listen self.fd_ backlog)).answer r
    if r.val < 0 then (false, w1) else (true, w1)

/-- `Socket::acceptSocket`; `r` answers `accept`.  The result is `none` when
the function throws `std::runtime_error`. -/
def acceptSocket (self : Socket) (w : World) (r : SysRet) : Option (Socket × World) :=
  if self.fd_ == -1 then none
  else
    let w1 := (w.call (.accept self.fd_)).answer r
    let client_fd := r.val
    if client_fd < 0 then
      if self.is_non_blocking_ && (w1.errno == EAGAIN || w1.errno == EWOULDBLOCK) then
        some (Socket.new, w1)
      else some (Socket.new, w1)
    else
      some ({ fd_ := client_fd, is_non_blocking_ := self.is_non_blocking_ }, w1)

/-- `Socket::send`; `r` answers `send`: the number of bytes the kernel took. -/
def send (self : Socket) (w : World) (data : List Char) (r : SysRet) : Int × World :=
  if self.fd_ == -1 then (-1, w)
  else (r.val, (w.call (.send self.fd_ data r.val)).answer r)

/-- What the kernel answers to `recv`: the bytes it has for the caller (none:
the peer has shut down), or failure. -/
inductive RecvRet where
  | ok (bytes : List Char)
  | err (e : Int)
  deriving DecidableEq

/-- `Socket::recv`: the returned count, the buffer afterwards, the new world.
The kernel hands over at most `size` bytes. -/
def recv (self : Socket) (w : World) (size : Nat) (r : RecvRet) :
    Int × List Char × World :=
  if self.fd_ == -1 then (-1, [], w)
  else if size == 0 then (0, [], w)
  else
    match r with
    | .err e =>
      (-1, [], { (w.call (.recv self.fd_ size [] (-1))) with errno := e })
    | .ok bytes =>
      let got := bytes.take size
      ((got.length : Int), got, w.call (.recv self.fd_ size got got.length))

/-- `Socket::setNonBlocking`; `rget` answers `fcntl(F_GETFL)` (the flags),
`rset` answers `fcntl(F_SETFL)`. -/
def setNonBlocking (self : Socket) (w : World) (nonblock : Bool) (rget rset : SysRet) :
    Bool × Socket × World :=
  if self.fd_ == -1 then (false, self, w)
  else
    let w1 := (w.call (.fcntl_getfl self.fd_)).answer rget
    match rget with
    | .err _ => (false, self, w1)
    | .ok flags =>
      let flags1 := if nonblock then flags ||| O_NONBLOCK else flags &&& (2 ^ 32 - 1 - O_NONBLOCK)
      let w2 := (w1.call (.fcntl_setfl self.fd_ flags1)).answer rset
      if rset.val < 0 then (false, self, w2)
      else (true, { self with is_non_blocking_ := nonblock }, w2)

end Socket

/-! ## epoll.cpp -/

/-- One `struct epoll_event` as the server reads it: `events` and `data.fd`. -/
structure epoll_event where
  events : Nat
  fd : Int
  deriving DecidableEq

/-- Class `Epoll`. -/
structure Epoll where
  epoll_fd_ : Int
  is_created_ : Bool
  deriving DecidableEq

namespace Epoll

/-- `Epoll::Epoll()`. -/
def new : Epoll := { epoll_fd_ := -1, is_created_ := false }

/-- `Epoll::create`; `r` answers `epoll_create1`. -/
def create (self : Epoll) (w : World) (r : SysRet) : Bool × Epoll × World :=
  if self.is_created_ then (false, self, w)
  else
    let (fd, w1) := w.epoll_create1 r
    let e1 : Epoll := { self with epoll_fd_ := fd }
    if e1.epoll_fd_ < 0 then (false, e1, w1)
    else (true, { e1 with is_created_ := true }, w1)

/-- `Epoll::add`; `r` is the kernel's answer to `EPOLL_CTL_ADD` for a
descriptor that is not registered yet. -/
def add (self : Epoll) (w : World) (fd : Int) (events : Nat) (r : SysRet) : Bool × World :=
  if !self.is_created_ then (false, w)
  else if fd < 0 then (false, w)
  else
    let (ret, w1) := w.epoll_ctl_add self.epoll_fd_ fd events r
    if ret < 0 then (false, w1) else (true, w1)

/-- `Epoll::remove`. -/
def remove (self : Epoll) (w : World) (fd : Int) : Bool × World :=
  if !self.is_created_ then (false, w)
  else if fd < 0 then (false, w)
  else
    let (ret, w1) := w.epoll_ctl_del self.epoll_fd_ fd
    if ret < 0 then (false, w1) else (true, w1)

/-- What the kernel answers to `epoll_wait`: the ready events, or failure
(`EINTR` when a signal interrupted the call). -/
inductive WaitRet where
  | ok (events : List epoll_event)
  | err (e : Int)
  deriving DecidableEq

/-- `Epoll::wait`. -/
def wait (self : Epoll) (w : World) (r : WaitRet) : List epoll_event × World :=
  if !self.is_created_ then ([], w)
  else
    let w1 := w.call (.epoll_wait self.epoll_fd_)
    match r with
    | .err e =>
      let w2 := { w1 with errno := e }
      if w2.errno == EINTR then ([], w2) else ([], w2)
    | .ok events => (events.take 1024, w1)

/-- `Epoll::close`. -/
def close (self : Epoll) (w : World) : Epoll × World :=
  if !self.is_created_ then (self, w)
  else
    if self.epoll_fd_ > 0 then
      ({ epoll_fd_ := -1, is_created_ := false }, w.call (.close self.epoll_fd_))
    else ({ self with is_created_ := false }, w)

end Epoll

/-! ## server.cpp -/

/-- Result of a call that loops over answers of the kernel. -/
inductive Outcome (α : Type) where
  /-- The call returned. -/
  | done (a : α)
  /-- The answers ran out while the loop was still going: the next thing the
  loop does is the system call at the top of its body. -/
  | starved
  /-- A `std::runtime_error` left the call. -/
  | thrown
  deriving DecidableEq

/-- The answers of the kernel during one iteration of the loop of
`handleNewConnection`: to `accept`, to the two `fcntl` calls of
`setNonBlocking` and to `EPOLL_CTL_ADD`. -/
structure AcceptStep where
  accept : SysRet
  getfl : SysRet
  setfl : SysRet
  ctl : SysRet
  deriving DecidableEq

/-- The answers of the kernel during one iteration of the loop of
`handleClientData`: to `recv` and, when data came, to `send`. -/
structure IoStep where
  recv : Socket.RecvRet
  send : SysRet
  deriving DecidableEq

/-- The type `std::unordered_map<int, std::unique_ptr<Socket>>`: a list of entries;
the operations below keep the keys distinct.  The order of the entries stands
for the unspecified iteration order of the container. -/
abbrev ClientMap := List (Int × Socket)

namespace ClientMap

/-- `clients_.find(fd)`: the mapped socket, `none` for `end()`. -/
def find (m : ClientMap) (fd : Int) : Option Socket :=
  (List.find? (fun e => e.1 == fd) m).map (fun e => e.2)

/-- The keys of the table. -/
def keys (m : ClientMap) : List Int := m.map (fun e => e.1)

/-- `clients_.erase(it)` for the entry of key `fd`, without the destructor. -/
def erase (m : ClientMap) (fd : Int) : ClientMap :=
  m.filter (fun e => e.1 != fd)

/-- `clients_[fd] = std::make_unique<Socket>(...)`: a new entry, or the
replacement of the mapped socket, whose destructor then runs. -/
def assign (m : ClientMap) (w : World) (fd : Int) (s : Socket) : ClientMap × World :=
  match find m fd with
  | some old => ((fd, s) :: erase m fd, old.destroy w)
  | none => ((fd, s) :: m, w)

/-- The loop `for (auto& client : clients_) client.second->close();`. -/
def closeAll : ClientMap → World → ClientMap × World
  | [], w => ([], w)
  | (fd, s) :: rest, w =>
    let (s1, w1) := s.close w
    let (rest1, w2) := closeAll rest w1
    ((fd, s1) :: rest1, w2)

/-- `clients_.clear()`: the destructor of every mapped socket runs. -/
def clear : ClientMap → World → World
  | [], w => w
  | (_, s) :: rest, w => clear rest (s.destroy w)

end ClientMap

/-- Class `EpollServer` (the logger apart). -/
structure EpollServer where
  server_socket_ : Socket
  epoll_ : Epoll
  running_ : Bool
  clients_ : ClientMap
  deriving DecidableEq

namespace EpollServer

/-- `EpollServer::PORT`. -/
def PORT : Int := 8080

/-- `EpollServer::BACKLOG`. -/
def BACKLOG : Int := 128

/-- `EpollServer::EpollServer()`. -/
def new : EpollServer :=
  { server_socket_ := Socket.new, epoll_ := Epoll.new, running_ := false, clients_ := [] }

/-- The interest mask `IN | ET | HUP | ERR` of a client descriptor. -/
def clientMask : Nat :=
  EpollEvents.IN ||| EpollEvents.ET ||| EpollEvents.HUP ||| EpollEvents.ERR

/-- The interest mask `IN | ET` of the listening descriptor. -/
def listenMask : Nat := EpollEvents.IN ||| EpollEvents.ET

/-- The answers of the kernel to the system calls of `start`, in order. -/
structure StartStep where
  socket : SysRet
  setsockopt : SysRet
  getfl : SysRet
  setfl : SysRet
  bind : SysRet
  listen : SysRet
  epoll_create1 : SysRet
  ctl : SysRet
  deriving DecidableEq

/-- `EpollServer::start`. -/
def start (self : EpollServer) (w : World) (o : StartStep) : Bool × EpollServer × World :=
  let (ok1, sock1, w1) := self.server_socket_.createSocket w o.socket o.setsockopt
  let s1 := { self with server_socket_ := sock1 }
  if !ok1 then (false, s1, w1)
  else
    let (ok2, sock2, w2) := s1.server_socket_.setNonBlocking w1 true o.getfl o.setfl
    let s2 := { s1 with server_socket_ := sock2 }
    if !ok2 then (false, s2, w2)
    else
      let (ok3, w3) := s2.server_socket_.bindSocket w2 PORT o.bind
      if !ok3 then (false, s2, w3)
      else
        let (ok4, w4) := s2.server_socket_.listenSocket w3 BACKLOG o.listen
        if !ok4 then (false, s2, w4)
        else
          let (ok5, ep5, w5) := s2.epoll_.create w4 o.epoll_create1
          let s5 := { s2 with epoll_ := ep5 }
          if !ok5 then (false, s5, w5)
          else
            let (ok6, w6) := s5.epoll_.add w5 s5.server_socket_.getFd listenMask o.ctl
            if !ok6 then (false, s5, w6)
            else (true, { s5 with running_ := true }, w6)

/-- `EpollServer::stop`. -/
def stop (self : EpollServer) (w : World) : EpollServer × World :=
  if self.running_ then
    let (closed, w1) := ClientMap.closeAll self.clients_ w
    let w2 := ClientMap.clear closed w1
    let (sock, w3) := self.server_socket_.close w2
    let (ep, w4) := self.epoll_.close w3
    ({ server_socket_ := sock, epoll_ := ep, running_ := false, clients_ := [] }, w4)
  else (self, w)

/-- `EpollServer::handleClientDisconnect`.  Erasing the entry destroys the
mapped `Socket`, whose destructor closes the descriptor. -/
def handleClientDisconnect (self : EpollServer) (w : World) (client_fd : Int) :
    EpollServer × World :=
  match self.clients_.find client_fd with
  | some sock =>
    let (_, w1) := self.epoll_.remove w client_fd
    ({ self with clients_ := self.clients_.erase client_fd }, sock.destroy w1)
  | none => (self, w)

/-- `EpollServer::handleClientError`. -/
def handleClientError (self : EpollServer) (w : World) (client_fd : Int) :
    EpollServer × World :=
  handleClientDisconnect self w client_fd

/-- The loop `while (true)` of `handleClientData` on the mapped socket
`client_socket`; one `IoStep` per iteration.  The result carries the answers
that were not used. -/
def drain (client_fd : Int) (client_socket : Socket) :
    EpollServer → World → List IoStep → Outcome (EpollServer × World × List IoStep)
  | _, _, [] => .starved
  | self, w, io :: rest =>
    let (bytes_read, buffer, w1) := client_socket.recv w 4096 io.recv
    if bytes_read > 0 then
      let recv_data := buffer.take bytes_read.toNat
      let (bytes_sent, w2) := client_socket.send w1 recv_data io.send
      if bytes_sent < 0 then
        let (s3, w3) := handleClientDisconnect self w2 client_fd
        .done (s3, w3, rest)
      else drain client_fd client_socket self w2 rest
    else if bytes_read == 0 then
      let (s3, w3) := handleClientDisconnect self w1 client_fd
      .done (s3, w3, rest)
    else if bytes_read == -1 then
      if w1.errno == EAGAIN && w1.errno == EWOULDBLOCK then .done (self, w1, rest)
      else
        let (s3, w3) := handleClientError self w1 client_fd
        .done (s3, w3, rest)
    else drain client_fd client_socket self w1 rest

/-- `EpollServer::handleClientData`. -/
def handleClientData (self : EpollServer) (w : World) (client_fd : Int)
    (ios : List IoStep) : Outcome (EpollServer × World × List IoStep) :=
  match self.clients_.find client_fd with
  | none => .done (self, w, ios)
  | some client_socket => drain client_fd client_socket self w ios

/-- `EpollServer::handleNewConnection`; one `AcceptStep` per iteration of its
loop.  The result carries the answers that were not used. -/
def handleNewConnection :
    EpollServer → World → List AcceptStep → Outcome (EpollServer × World × List AcceptStep)
  | _, _, [] => .starved
  | self, w, a :: rest =>
    match self.server_socket_.acceptSocket w a.accept with
    | none => .thrown
    | some (client_socket, w1) =>
      if !client_socket.isValid then .done (self, w1, rest)
      else
        let client_fd := client_socket.getFd
        let (ok2, cs2, w2) := client_socket.setNonBlocking w1 true a.getfl a.setfl
        if !ok2 then
          let (cs3, w3) := cs2.close w2
          handleNewConnection self (cs3.destroy w3) rest
        else
          let (ok4, w4) := self.epoll_.add w2 client_fd clientMask a.ctl
          if !ok4 then
            let (cs5, w5) := cs2.close w4
            handleNewConnection self (cs5.destroy w5) rest
          else
            let (moved, left) := cs2.move
            let (m6, w6) := self.clients_.assign w4 client_fd moved
            handleNewConnection { self with clients_ := m6 } (left.destroy w6) rest

/-- The body of `for (const auto& event : events)` in `run`, for one event. -/
def dispatch (self : EpollServer) (w : World) (event : epoll_event)
    (accepts : List AcceptStep) (ios : List IoStep) :
    Outcome (EpollServer × World × List AcceptStep × List IoStep) :=
  let fd := event.fd
  if fd == self.server_socket_.getFd then
    match handleNewConnection self w accepts with
    | .done (s1, w1, accepts1) => .done (s1, w1, accepts1, ios)
    | .starved => .starved
    | .thrown => .thrown
  else
    let afterIn : Outcome (EpollServer × World × List IoStep) :=
      if event.events &&& EpollEvents.IN != 0 then handleClientData self w fd ios
      else .done (self, w, ios)
    match afterIn with
    | .done (s1, w1, ios1) =>
      let (s2, w2) :=
        if event.events &&& EpollEvents.ERR != 0 then handleClientError s1 w1 fd
        else (s1, w1)
      let (s3, w3) :=
        if event.events &&& EpollEvents.HUP != 0 then handleClientDisconnect s2 w2 fd
        else (s2, w2)
      .done (s3, w3, accepts, ios1)
    | .starved => .starved
    | .thrown => .thrown

/-- The loop `for (const auto& event : events)` of `run`. -/
def dispatchAll :
    EpollServer → World → List epoll_event → List AcceptStep → List IoStep →
      Outcome (EpollServer × World × List AcceptStep × List IoStep)
  | self, w, [], accepts, ios => .done (self, w, accepts, ios)
  | self, w, event :: events, accepts, ios =>
    match dispatch self w event accepts ios with
    | .done (s1, w1, accepts1, ios1) => dispatchAll s1 w1 events accepts1 ios1
    | .starved => .starved
    | .thrown => .thrown

/-- `EpollServer::run`; one answer to `epoll_wait` per iteration of
`while (running_)`.  `starved` with no answer left means that the loop goes on
to call `wait` once more; `done` means that the loop was left. -/
def run :
    EpollServer → World → List Epoll.WaitRet → List AcceptStep → List IoStep →
      Outcome (EpollServer × World)
  | self, w, [], _, _ => if self.running_ then .starved else .done (self, w)
  | self, w, r :: waits, accepts, ios =>
    if self.running_ then
      let (events, w1) := self.epoll_.wait w r
      if events.isEmpty && !self.running_ then .done (self, w1)
      else
        match dispatchAll self w1 events accepts ios with
        | .done (s2, w2, accepts2, ios2) => run s2 w2 waits accepts2 ios2
        | .starved => .starved
        | .thrown => .thrown
    else .done (self, w)

end EpollServer

/-! ## The process: `main` and the signal handler -/

/-- The server object of `main`, the operating system and the global
`stop_server`. -/
structure Process where
  server : EpollServer
  os : World
  stop_server : Int
  deriving DecidableEq

/-- `signalHandler`. -/
def signalHandler (_signum : Int) (p : Process) : Process :=
  { p with stop_server := 1 }

/-- The call `server.run()` of `main`. -/
def Process.run (p : Process) (waits : List Epoll.WaitRet) (accepts : List AcceptStep)
    (ios : List IoStep) : Outcome Process :=
  match p.server.run p.os waits accepts ios with
  | .done (s, w) => .done { p with server := s, os := w }
  | .starved => .starved
  | .thrown => .thrown

/-- The call `server.stop()` of `main`. -/
def Process.stop (p : Process) : Process :=
  let (s, w) := p.server.stop p.os
  { p with server := s, os := w }

/-! ## Notions used to state the properties -/

open EpollServer

/-- Value of `ECONNABORTED`, an error of `accept` that is not would-block. -/
def ECONNABORTED : Int := 103

/-- The bytes the kernel took from the `send` calls on `fd` in a trace: of each
call the first `ret` bytes of what was offered. -/
def sentOn (fd : Int) : List Syscall → List Char
  | [] => []
  | .send f data ret :: t => (if f = fd then data.take ret.toNat else []) ++ sentOn fd t
  | _ :: t => sentOn fd t

/-- The bytes the `recv` calls on `fd` returned in a trace. -/
def receivedOn (fd : Int) : List Syscall → List Char
  | [] => []
  | .recv f _ data _ :: t => (if f = fd then data else []) ++ receivedOn fd t
  | _ :: t => receivedOn fd t

/-- An iteration of the drain loop that goes on to the next one: `recv` returns
data and `send` does not fail. -/
def IoStep.isEcho : IoStep → Bool
  | ⟨.ok (_ :: _), .ok _⟩ => true
  | _ => false

/-- The system calls of a run of iterations that echo, on the descriptor `fd`. -/
def echoTrace (fd : Int) : List IoStep → List Syscall
  | [] => []
  | ⟨.ok bytes, r⟩ :: t =>
    [Syscall.recv fd 4096 (bytes.take 4096) ((bytes.take 4096).length : Int),
     Syscall.send fd (bytes.take 4096) r.val] ++ echoTrace fd t
  | ⟨.err _, _⟩ :: t => echoTrace fd t

/-- Iterations in which `recv` returns the given chunks, one after the other,
and `send` takes every byte it is offered. -/
def echoSteps (chunks : List (List Char)) : List IoStep :=
  chunks.map (fun c => ⟨.ok c, .ok (c.take 4096).length⟩)

/-- The client `fd`, whose handle in the table of `self` was `sock`, has been
closed on the way from `(self, w)` to `(s1, w1)`: it is neither in the table
nor in the interest list, the last two system calls are the `EPOLL_CTL_DEL` of
`fd` and the `close` of the descriptor of the handle, and every other table
entry and registration is as before. -/
def TornDown (self : EpollServer) (w : World) (fd : Int) (sock : Socket)
    (s1 : EpollServer) (w1 : World) : Prop :=
  s1.clients_.find fd = none ∧ w1.registered fd = false ∧
  (∃ mid, w1.trace = w.trace ++ mid ++
    [Syscall.epoll_ctl_del self.epoll_.epoll_fd_ fd, Syscall.close sock.fd_]) ∧
  s1 = { self with clients_ := self.clients_.erase fd } ∧
  (∀ k, k ≠ fd → s1.clients_.find k = self.clients_.find k) ∧
  w1.interest = w.interest.filter (fun e => e.1 != fd) ∧
  (∀ k m, k ≠ fd → ((k, m) ∈ w1.interest ↔ (k, m) ∈ w.interest))

/-- The `close` calls that closing every valid handle of the table makes, in
the order of the table. -/
def ClientMap.closes (m : ClientMap) : List Syscall :=
  (m.filter (fun e => e.2.fd_ != -1)).map (fun e => Syscall.close e.2.fd_)

/-- The descriptor that `accept` returns in this iteration. -/
def AcceptStep.fd (a : AcceptStep) : Int := a.accept.val

/-- An iteration of the accept loop in which `accept`, both `fcntl` calls and
`EPOLL_CTL_ADD` are answered with success. -/
def AcceptStep.succeeds : AcceptStep → Bool
  | ⟨.ok _, .ok _, .ok _, .ok _⟩ => true
  | _ => false

/-- Whether a system call is an `EPOLL_CTL_ADD`. -/
def Syscall.isAdd : Syscall → Bool
  | .epoll_ctl_add _ _ _ => true
  | _ => false

/-- The registration invariant: the multiplexer is created, the keys of the
table are non-negative and differ from the listening descriptor, and the
interest list holds exactly the listening descriptor with `IN | ET` and every
key of the table with `IN | ET | HUP | ERR`. -/
def Inv (s : EpollServer) (w : World) : Prop :=
  s.epoll_.is_created_ = true ∧
  (∀ k ∈ s.clients_.keys, 0 ≤ k ∧ k ≠ s.server_socket_.fd_) ∧
  (∀ k m, (k, m) ∈ w.interest ↔
    (k = s.server_socket_.fd_ ∧ m = listenMask) ∨ (k ∈ s.clients_.keys ∧ m = clientMask))

/-- The ownership invariant: the handle mapped to a key holds that key as its
descriptor. -/
def Owns (s : EpollServer) : Prop := ∀ e ∈ s.clients_, e.2.fd_ = e.1

/-- The states the server goes through after a successful `start`, by calls of
the four handlers that return, whatever the kernel answers. -/
inductive Reachable : EpollServer → World → Prop where
  | start (w0 : World) (o : StartStep) (s : EpollServer) (w : World) :
      EpollServer.new.start w0 o = (true, s, w) → Reachable s w
  | newConnection (s : EpollServer) (w : World) (accepts rest : List AcceptStep)
      (s1 : EpollServer) (w1 : World) :
      Reachable s w → handleNewConnection s w accepts = .done (s1, w1, rest) → Reachable s1 w1
  | clientData (s : EpollServer) (w : World) (fd : Int) (ios rest : List IoStep)
      (s1 : EpollServer) (w1 : World) :
      Reachable s w → handleClientData s w fd ios = .done (s1, w1, rest) → Reachable s1 w1
  | clientError (s : EpollServer) (w : World) (fd : Int) :
      Reachable s w → Reachable (handleClientError s w fd).1 (handleClientError s w fd).2
  | clientDisconnect (s : EpollServer) (w : World) (fd : Int) :
      Reachable s w →
        Reachable (handleClientDisconnect s w fd).1 (handleClientDisconnect s w fd).2

/-! ### Event dispatch and startup, in the words of the specification -/

/-- The handlers that `run` can invoke for an event: accept handling, read-and-echo,
error teardown and hangup teardown. -/
inductive Handler where
  | accept
  | readEcho (fd : Int)
  | errorTeardown (fd : Int)
  | hangupTeardown (fd : Int)
  deriving DecidableEq

/-- Invoking a handler: the member function of the server it stands for
(`handleNewConnection`, `handleClientData`, `handleClientError`,
`handleClientDisconnect`). -/
def Handler.invoke (h : Handler) (self : EpollServer) (w : World)
    (accepts : List AcceptStep) (ios : List IoStep) :
    Outcome (EpollServer × World × List AcceptStep × List IoStep) :=
  match h with
  | .accept =>
    match handleNewConnection self w accepts with
    | .done (s1, w1, accepts1) => .done (s1, w1, accepts1, ios)
    | .starved => .starved
    | .thrown => .thrown
  | .readEcho fd =>
    match handleClientData self w fd ios with
    | .done (s1, w1, ios1) => .done (s1, w1, accepts, ios1)
    | .starved => .starved
    | .thrown => .thrown
  | .errorTeardown fd =>
    .done ((handleClientError self w fd).1, (handleClientError self w fd).2, accepts, ios)
  | .hangupTeardown fd =>
    .done ((handleClientDisconnect self w fd).1, (handleClientDisconnect self w fd).2,
      accepts, ios)

/-- Invoking handlers one after the other. -/
def invokeAll :
    List Handler → EpollServer → World → List AcceptStep → List IoStep →
      Outcome (EpollServer × World × List AcceptStep × List IoStep)
  | [], self, w, accepts, ios => .done (self, w, accepts, ios)
  | h :: rest, self, w, accepts, ios =>
    match h.invoke self w accepts ios with
    | .done (s1, w1, accepts1, ios1) => invokeAll rest s1 w1 accepts1 ios1
    | .starved => .starved
    | .thrown => .thrown

/-- The handlers an event calls for, written after the specification and not
after the source: only the accept handling for the listening descriptor;
otherwise read-and-echo when the mask has bit 0 (`IN`), then error teardown when
it has bit 3 (`ERR`), then hangup teardown when it has bit 4 (`HUP`), each bit
looked at on its own. -/
def handlersFor (listening : Int) (event : epoll_event) : List Handler :=
  if event.fd = listening then [Handler.accept]
  else
    (if event.events.testBit 0 then [Handler.readEcho event.fd] else []) ++
    (if event.events.testBit 3 then [Handler.errorTeardown event.fd] else []) ++
    (if event.events.testBit 4 then [Handler.hangupTeardown event.fd] else [])

/-- One step of startup as the specification lists them: the system calls it
makes and whether it succeeds. -/
structure Stage where
  calls : List Syscall
  succeeds : Bool
  deriving DecidableEq

/-- The six steps of startup, written after the specification and not after the
source, for given answers of the kernel: create the socket (with the
address-reuse option; the descriptor is closed again when the option fails), set
it non-blocking (query, then set the flags), bind to port 8080, listen with
backlog 128, create the multiplexer, register the listening descriptor with
`IN | ET`. -/
def startStages (o : StartStep) : List Stage :=
  [ { calls := [Syscall.socket] ++
        (match o.socket, o.setsockopt with
         | .ok fd, .ok _ => [Syscall.setsockopt fd]
         | .ok fd, .err _ => [Syscall.setsockopt fd, Syscall.close fd]
         | .err _, _ => [])
      succeeds := decide (0 ≤ o.socket.val) && decide (0 ≤ o.setsockopt.val) },
    { calls := [Syscall.fcntl_getfl o.socket.val] ++
        (match o.getfl with
         | .ok flags => [Syscall.fcntl_setfl o.socket.val (flags ||| O_NONBLOCK)]
         | .err _ => [])
      succeeds := decide (0 ≤ o.getfl.val) && decide (0 ≤ o.setfl.val) },
    { calls := [Syscall.bind o.socket.val 8080]
      succeeds := decide (0 ≤ o.bind.val) },
    { calls := [Syscall.listen o.socket.val 128]
      succeeds := decide (0 ≤ o.listen.val) },
    { calls := [Syscall.epoll_create1]
      succeeds := decide (0 ≤ o.epoll_create1.val) },
    { calls := [Syscall.epoll_ctl_add o.epoll_create1.val o.socket.val
        (EpollEvents.IN ||| EpollEvents.ET)]
      succeeds := decide (0 ≤ o.ctl.val) } ]

/-- The steps that are performed when a sequence of steps stops at the first one
that fails: that one and those before it. -/
def performed : List Stage → List Stage
  | [] => []
  | s :: rest => if s.succeeds then s :: performed rest else [s]

/-! ### States for the examples -/

/-- The operating system before `start`. -/
def bootWorld : World := { interest := [], trace := [], errno := 0 }

/-- Answers with which `start` succeeds: the listening socket gets descriptor
3 and the multiplexer descriptor 4. -/
def okStart : StartStep :=
  { socket := .ok 3, setsockopt := .ok 0, getfl := .ok 2, setfl := .ok 0, bind := .ok 0,
    listen := .ok 0, epoll_create1 := .ok 4, ctl := .ok 0 }

/-- The operating system after `start` on `bootWorld` with `okStart`. -/
def startedWorld : World :=
  { interest := [(3, listenMask)]
    trace := [Syscall.socket, Syscall.setsockopt 3, Syscall.fcntl_getfl 3,
      Syscall.fcntl_setfl 3 2050, Syscall.bind 3 8080, Syscall.listen 3 128,
      Syscall.epoll_create1, Syscall.epoll_ctl_add 4 3 listenMask]
    errno := 0 }

/-- A server with two clients, descriptors 5 and 6, as `start` and
`handleNewConnection` leave it. -/
def demoServer : EpollServer :=
  { server_socket_ := { fd_ := 3, is_non_blocking_ := true }
    epoll_ := { epoll_fd_ := 4, is_created_ := true }
    running_ := true
    clients_ := [(6, { fd_ := 6, is_non_blocking_ := true }),
                 (5, { fd_ := 5, is_non_blocking_ := true })] }

/-- The operating system that goes with `demoServer`, with an empty trace. -/
def demoWorld : World :=
  { interest := [(3, listenMask), (5, clientMask), (6, clientMask)]
    trace := []
    errno := 0 }

/-- The operating system after `start` and the acceptance of the clients 5 and
6: `demoWorld` with the trace of the system calls made so far. -/
def servingWorld : World :=
  { interest := demoWorld.interest
    trace := startedWorld.trace ++ [Syscall.accept 3, Syscall.fcntl_getfl 5,
      Syscall.fcntl_setfl 5 2050, Syscall.epoll_ctl_add 4 5 clientMask, Syscall.accept 3,
      Syscall.fcntl_getfl 6, Syscall.fcntl_setfl 6 2050, Syscall.epoll_ctl_add 4 6 clientMask,
      Syscall.accept 3]
    errno := EAGAIN }

/-! ## Theorems -/

/-! ### Answers of the kernel -/

/-- A system call returns a non-negative value exactly when it succeeds. -/
theorem SysRet.val_nonneg_iff (r : SysRet) : 0 ≤ r.val ↔ ∃ v, r = .ok v := by
  cases r with
  | ok v => simp [SysRet.val]
  | err e => simp [SysRet.val]

/-- A system call returns a negative value exactly when it fails. -/
theorem SysRet.val_neg_iff (r : SysRet) : r.val < 0 ↔ ∃ e, r = .err e := by
  cases r with
  | ok v => simp [SysRet.val]
  | err e => simp [SysRet.val]

/-- A descriptor is registered when the interest list has an entry for it. -/
theorem World.registered_iff (w : World) (fd : Int) :
    w.registered fd = true ↔ ∃ m, (fd, m) ∈ w.interest := by
  simp only [World.registered, List.any_eq_true, beq_iff_eq]
  constructor
  · rintro ⟨⟨k, m⟩, hmem, rfl⟩
    exact ⟨m, hmem⟩
  · rintro ⟨m, hmem⟩
    exact ⟨(fd, m), hmem, rfl⟩

/-- Registration after one more entry of the interest list. -/
theorem World.registered_append (w : World) (t : List Syscall) (e : Int) (fd k : Int) (m : Nat) :
    World.registered { interest := w.interest ++ [(k, m)], trace := t, errno := e } fd
      = (w.registered fd || (k == fd)) := by
  simp [World.registered, List.any_append]

/-- Removing an unregistered descriptor leaves the interest list as it is. -/
theorem World.filter_of_not_registered (w : World) (fd : Int) (h : w.registered fd = false) :
    w.interest.filter (fun e => e.1 != fd) = w.interest := by
  rw [List.filter_eq_self]
  intro e he
  simp only [World.registered, List.any_eq_false] at h
  have := h e he
  simpa using this

/-- The kernel state after `EPOLL_CTL_DEL`, whether it succeeds or not. -/
theorem World.epoll_ctl_del_snd (w : World) (epfd fd : Int) :
    (w.epoll_ctl_del epfd fd).2 =
      { interest := w.interest.filter (fun e => e.1 != fd)
        trace := w.trace ++ [Syscall.epoll_ctl_del epfd fd]
        errno := if w.registered fd then w.errno else ENOENT } := by
  have hreg : (w.call (Syscall.epoll_ctl_del epfd fd)).registered fd = w.registered fd := rfl
  unfold World.epoll_ctl_del
  simp only [hreg]
  cases hr : w.registered fd with
  | true => simp [World.call]
  | false => simp [World.call, World.filter_of_not_registered w fd hr]

/-! ### The connection table -/

/-- An erased key is not found. -/
theorem ClientMap.find_erase_self (m : ClientMap) (fd : Int) :
    ClientMap.find (ClientMap.erase m fd) fd = none := by
  induction m with
  | nil => rfl
  | cons e m ih =>
    by_cases h : e.1 = fd
    · simp [ClientMap.erase, ClientMap.find, List.filter_cons, h] at ih ⊢
    · simp [ClientMap.erase, ClientMap.find, List.filter_cons, h, List.find?_cons] at ih ⊢

/-- Erasing a key does not change what the other keys map to. -/
theorem ClientMap.find_erase_ne (m : ClientMap) (fd k : Int) (h : k ≠ fd) :
    ClientMap.find (ClientMap.erase m fd) k = ClientMap.find m k := by
  have hp : (fun a : Int × Socket => decide ((a.1 != fd) = true ∧ (a.1 == k) = true))
      = (fun e => e.1 == k) := by
    funext a
    by_cases h2 : a.1 = k
    · simp [h2, h]
    · simp [h2]
  simp only [ClientMap.find, ClientMap.erase, List.find?_filter, hp]

/-- Looking up a key in a table with one more entry in front. -/
theorem ClientMap.find_cons (m : ClientMap) (k fd : Int) (s : Socket) :
    ClientMap.find ((k, s) :: m) fd = if k = fd then some s else ClientMap.find m fd := by
  by_cases h : k = fd <;> simp [ClientMap.find, List.find?_cons, h]

/-- A key is not found exactly when it is not among the keys. -/
theorem ClientMap.find_eq_none_iff (m : ClientMap) (fd : Int) :
    ClientMap.find m fd = none ↔ fd ∉ m.keys := by
  simp only [ClientMap.find, ClientMap.keys, Option.map_eq_none', List.find?_eq_none,
    List.mem_map, not_exists, not_and, beq_iff_eq, Prod.forall]

/-- The keys after erasing one. -/
theorem ClientMap.mem_keys_erase (m : ClientMap) (fd k : Int) :
    k ∈ (ClientMap.erase m fd).keys ↔ k ∈ m.keys ∧ k ≠ fd := by
  simp only [ClientMap.keys, ClientMap.erase, List.mem_map, List.mem_filter, bne_iff_ne, ne_eq,
    Prod.exists, exists_and_right, exists_eq_right]

/-- What `find` returns is an entry of the table. -/
theorem ClientMap.mem_of_find (m : ClientMap) (fd : Int) (sock : Socket)
    (h : ClientMap.find m fd = some sock) : (fd, sock) ∈ m := by
  simp only [ClientMap.find, Option.map_eq_some'] at h
  obtain ⟨⟨k, s⟩, hfound, rfl⟩ := h
  have hk := List.find?_some hfound
  simp only [beq_iff_eq] at hk
  subst hk
  exact List.mem_of_find?_eq_some hfound

/-- After the closing loop every handle of the table is invalid. -/
theorem ClientMap.closeAll_fst (m : ClientMap) (w : World) :
    ∀ e ∈ (ClientMap.closeAll m w).1, e.2.fd_ = -1 := by
  induction m generalizing w with
  | nil => simp [ClientMap.closeAll]
  | cons e m ih =>
    obtain ⟨fd, s⟩ := e
    intro x hx
    simp only [ClientMap.closeAll, List.mem_cons] at hx
    rcases hx with rfl | hx
    · simp only [Socket.close]
      split <;> simp_all
    · exact ih _ x hx

/-- The closing loop makes the `close` calls of `ClientMap.closes` and nothing else. -/
theorem ClientMap.closeAll_snd (m : ClientMap) (w : World) :
    (ClientMap.closeAll m w).2 = { w with trace := w.trace ++ ClientMap.closes m } := by
  induction m generalizing w with
  | nil => simp [ClientMap.closeAll, ClientMap.closes]
  | cons e m ih =>
    obtain ⟨fd, s⟩ := e
    simp only [ClientMap.closeAll, ih]
    by_cases h : s.fd_ = -1
    · simp [Socket.close, h, ClientMap.closes, List.filter_cons]
    · simp [Socket.close, h, ClientMap.closes, List.filter_cons, World.call]

/-- Clearing a table of invalid handles makes no system call. -/
theorem ClientMap.clear_of_closed (m : ClientMap) (w : World)
    (h : ∀ e ∈ m, e.2.fd_ = -1) : ClientMap.clear m w = w := by
  induction m generalizing w with
  | nil => rfl
  | cons e m ih =>
    obtain ⟨fd, s⟩ := e
    have hs : s.fd_ = -1 := h (fd, s) (by simp)
    simp only [ClientMap.clear, Socket.destroy, hs]
    simpa using ih w (fun e he => h e (by simp [he]))

/-- When the handles hold distinct descriptors, each valid one is closed exactly once. -/
theorem ClientMap.closes_count (m : ClientMap) (hn : (m.map (fun e => e.2.fd_)).Nodup)
    (e : Int × Socket) (he : e ∈ m) (hv : e.2.fd_ ≠ -1) :
    List.count (Syscall.close e.2.fd_) (ClientMap.closes m) = 1 := by
  have hsub : ((m.filter (fun e => e.2.fd_ != -1)).map (fun e => e.2.fd_)).Nodup :=
    hn.sublist (List.Sublist.map _ (List.filter_sublist _))
  have hcl : ClientMap.closes m =
      ((m.filter (fun e => e.2.fd_ != -1)).map (fun e => e.2.fd_)).map Syscall.close := by
    simp [ClientMap.closes, List.map_map, Function.comp_def]
  have hnd : (ClientMap.closes m).Nodup := by
    rw [hcl]
    exact hsub.map (fun a b hab => by simpa using hab)
  apply List.count_eq_one_of_mem hnd
  simp only [ClientMap.closes, List.mem_map, List.mem_filter]
  exact ⟨e, ⟨he, by simpa using hv⟩, rfl⟩

/-! ### socket.cpp and epoll.cpp -/

/-- The method `recv` on a valid handle when the kernel has bytes. -/
theorem Socket.recv_ok (sock : Socket) (hv : sock.fd_ ≠ -1) (w : World) (bytes : List Char) :
    sock.recv w 4096 (.ok bytes)
      = (((bytes.take 4096).length : Int), bytes.take 4096,
          w.call (.recv sock.fd_ 4096 (bytes.take 4096) ((bytes.take 4096).length : Int))) := by
  simp [Socket.recv, hv]

/-- The method `recv` on a valid handle when the kernel reports an error. -/
theorem Socket.recv_err (sock : Socket) (hv : sock.fd_ ≠ -1) (w : World) (e : Int) :
    sock.recv w 4096 (.err e)
      = (-1, [], { (w.call (.recv sock.fd_ 4096 [] (-1))) with errno := e }) := by
  simp [Socket.recv, hv]

/-- The method `send` on a valid handle when the kernel takes `n` bytes. -/
theorem Socket.send_ok (sock : Socket) (hv : sock.fd_ ≠ -1) (w : World) (data : List Char)
    (n : Nat) :
    sock.send w data (.ok n) = ((n : Int), w.call (.send sock.fd_ data (n : Int))) := by
  simp [Socket.send, hv, SysRet.val, World.answer]

/-- The method `send` on a valid handle when the kernel reports an error. -/
theorem Socket.send_err (sock : Socket) (hv : sock.fd_ ≠ -1) (w : World) (data : List Char)
    (e : Int) :
    sock.send w data (.err e)
      = (-1, { (w.call (.send sock.fd_ data (-1))) with errno := e }) := by
  simp [Socket.send, hv, SysRet.val, World.answer]

/-- The method `recv` does not touch the interest list. -/
theorem Socket.recv_interest (sock : Socket) (w : World) (size : Nat) (r : Socket.RecvRet) :
    (sock.recv w size r).2.2.interest = w.interest := by
  unfold Socket.recv
  split
  · rfl
  · split
    · rfl
    · cases r <;> rfl

/-- The method `send` does not touch the interest list. -/
theorem Socket.send_interest (sock : Socket) (w : World) (data : List Char) (r : SysRet) :
    (sock.send w data r).2.interest = w.interest := by
  unfold Socket.send
  split
  · rfl
  · cases r <;> rfl

/-- The method `acceptSocket` on a valid listening handle when a connection is pending. -/
theorem Socket.acceptSocket_ok (s : Socket) (hs : s.fd_ ≠ -1) (w : World) (v : Nat) :
    s.acceptSocket w (.ok v)
      = some ({ fd_ := (v : Int), is_non_blocking_ := s.is_non_blocking_ },
              w.call (.accept s.fd_)) := by
  have hv : ¬ ((v : Int) < 0) := by omega
  simp [Socket.acceptSocket, hs, SysRet.val, World.answer, hv]

/-- The method `acceptSocket` on a valid listening handle when `accept` fails: an
invalid handle, whatever the error. -/
theorem Socket.acceptSocket_err (s : Socket) (hs : s.fd_ ≠ -1) (w : World) (e : Int) :
    s.acceptSocket w (.err e)
      = some (Socket.new, { (w.call (.accept s.fd_)) with errno := e }) := by
  simp [Socket.acceptSocket, hs, SysRet.val, World.answer]

/-- The method `setNonBlocking(true)` when both `fcntl` calls succeed. -/
theorem Socket.setNonBlocking_ok (v : Nat) (nb : Bool) (w : World) (fl x : Nat) :
    Socket.setNonBlocking { fd_ := (v : Int), is_non_blocking_ := nb } w true (.ok fl) (.ok x)
      = (true, { fd_ := (v : Int), is_non_blocking_ := true },
          { w with trace := w.trace ++ [Syscall.fcntl_getfl v,
              Syscall.fcntl_setfl v (fl ||| O_NONBLOCK)] }) := by
  have hv : ¬ ((v : Int) = -1) := by omega
  have hx : ¬ ((x : Int) < 0) := by omega
  simp [Socket.setNonBlocking, hv, hx, World.call, World.answer, SysRet.val]

/-- The kernel state after `Epoll::remove` on a created multiplexer and a non-negative
descriptor. -/
theorem Epoll.remove_snd (ep : Epoll) (w : World) (fd : Int)
    (hcreated : ep.is_created_ = true) (hfd : 0 ≤ fd) :
    (ep.remove w fd).2 =
      { interest := w.interest.filter (fun e => e.1 != fd)
        trace := w.trace ++ [Syscall.epoll_ctl_del ep.epoll_fd_ fd]
        errno := if w.registered fd then w.errno else ENOENT } := by
  have hfd' : ¬ fd < 0 := by omega
  rw [← World.epoll_ctl_del_snd]
  unfold Epoll.remove
  simp only [hcreated, hfd', Bool.not_true, Bool.false_eq_true, if_false]
  split <;> rfl

/-- The method `add` fails, and leaves the interest list alone, when the multiplexer is
not created, the descriptor is registered already or the kernel refuses. -/
theorem Epoll.add_fail (ep : Epoll) (w : World) (fd : Int) (events : Nat) (r : SysRet)
    (hfail : ep.is_created_ = false ∨ w.registered fd = true ∨ ∃ e, r = .err e) :
    (ep.add w fd events r).1 = false ∧ (ep.add w fd events r).2.interest = w.interest ∧
      ∃ mid, (ep.add w fd events r).2.trace = w.trace ++ mid := by
  have hreg : (w.call (Syscall.epoll_ctl_add ep.epoll_fd_ fd events)).registered fd
      = w.registered fd := rfl
  unfold Epoll.add
  split
  · exact ⟨rfl, rfl, [], by simp⟩
  · rename_i hc
    split
    · exact ⟨rfl, rfl, [], by simp⟩
    · have hc' : ep.is_created_ = true := by simpa using hc
      unfold World.epoll_ctl_add
      simp only [hreg]
      cases hr : w.registered fd with
      | true =>
        exact ⟨by simp, by simp [World.call],
          [Syscall.epoll_ctl_add ep.epoll_fd_ fd events], by simp [World.call]⟩
      | false =>
        rcases hfail with h | h | ⟨e, h⟩
        · rw [hc'] at h; exact absurd h (by simp)
        · rw [hr] at h; exact absurd h (by simp)
        · subst h
          exact ⟨by simp, by simp [World.call],
            [Syscall.epoll_ctl_add ep.epoll_fd_ fd events], by simp [World.call]⟩

/-- The method `add` on a created multiplexer, for an unregistered descriptor the kernel
accepts. -/
theorem Epoll.add_ok (ep : Epoll) (w : World) (v : Nat) (events : Nat) (y : Nat)
    (hc : ep.is_created_ = true) (hr : w.registered v = false) :
    ep.add w v events (.ok y)
      = (true, { w with interest := w.interest ++ [((v : Int), events)]
                        trace := w.trace ++ [Syscall.epoll_ctl_add ep.epoll_fd_ v events] }) := by
  have hreg : (w.call (Syscall.epoll_ctl_add ep.epoll_fd_ v events)).registered v
      = w.registered v := rfl
  have hv0 : ¬ ((v : Int) < 0) := by omega
  unfold Epoll.add World.epoll_ctl_add
  simp only [hreg, hr]
  simp [hc, hv0, World.call]

/-- For a positive descriptor `close` does release what `create` acquired: it
calls `close` on it, stores `-1` and clears the created flag. -/
theorem Epoll.close_after_create_pos (w : World) (d : Nat) (hd : 0 < d) :
    (Epoll.new.create w (.ok d)).1 = true ∧
    ((Epoll.new.create w (.ok d)).2.1.close (Epoll.new.create w (.ok d)).2.2).1
      = { epoll_fd_ := -1, is_created_ := false } ∧
    ((Epoll.new.create w (.ok d)).2.1.close (Epoll.new.create w (.ok d)).2.2).2.trace
      = w.trace ++ [Syscall.epoll_create1, Syscall.close d] := by
  have h1 : (0 : Int) < (d : Int) := by exact_mod_cast hd
  have h2 : ¬ ((d : Int) < 0) := by omega
  simp [Epoll.create, Epoll.new, Epoll.close, World.epoll_create1, World.call, World.answer,
    SysRet.val, h1, h2]

/-- A second `Epoll::close` changes nothing. -/
theorem Epoll.close_close (e : Epoll) (w : World) :
    (e.close w).1.close (e.close w).2 = e.close w := by
  unfold Epoll.close
  split <;> [simp_all; (split <;> simp)]

/-! ### Traces of the drain loop -/

/-- The bytes sent in a concatenation of traces. -/
theorem sentOn_append (fd : Int) (a b : List Syscall) :
    sentOn fd (a ++ b) = sentOn fd a ++ sentOn fd b := by
  induction a with
  | nil => rfl
  | cons c a ih => cases c <;> simp [sentOn, ih]

/-- The bytes received in a concatenation of traces. -/
theorem receivedOn_append (fd : Int) (a b : List Syscall) :
    receivedOn fd (a ++ b) = receivedOn fd a ++ receivedOn fd b := by
  induction a with
  | nil => rfl
  | cons c a ih => cases c <;> simp [receivedOn, ih]

/-- The shape of an iteration that echoes. -/
theorem IoStep.isEcho_iff (io : IoStep) :
    io.isEcho = true ↔ ∃ b bs n, io = ⟨.ok (b :: bs), .ok n⟩ := by
  obtain ⟨r, s⟩ := io
  cases r with
  | err e => simp [IoStep.isEcho]
  | ok bytes =>
    cases bytes with
    | nil => simp [IoStep.isEcho]
    | cons b bs =>
      cases s with
      | ok n => simp [IoStep.isEcho]
      | err e => simp [IoStep.isEcho]

/-- The trace of a concatenation of iterations. -/
theorem echoTrace_append (fd : Int) (a b : List IoStep) :
    echoTrace fd (a ++ b) = echoTrace fd a ++ echoTrace fd b := by
  induction a with
  | nil => rfl
  | cons io a ih =>
    obtain ⟨r, s⟩ := io
    cases r <;> simp [echoTrace, ih]

/-- Iterations made from non-empty chunks echo. -/
theorem echoSteps_isEcho (chunks : List (List Char)) (hne : ∀ c ∈ chunks, c ≠ []) :
    ∀ io ∈ echoSteps chunks, io.isEcho = true := by
  intro io hio
  simp only [echoSteps, List.mem_map] at hio
  obtain ⟨c, hc, rfl⟩ := hio
  cases c with
  | nil => exact absurd rfl (hne [] hc)
  | cons b bs => rfl

/-- When every `send` takes all it is offered, the bytes sent and the bytes received
in the trace of the iterations are both the concatenation of the chunks. -/
theorem echoTrace_echoSteps (fd : Int) (chunks : List (List Char)) :
    sentOn fd (echoTrace fd (echoSteps chunks)) = (chunks.map (List.take 4096)).flatten ∧
    receivedOn fd (echoTrace fd (echoSteps chunks)) = (chunks.map (List.take 4096)).flatten := by
  induction chunks with
  | nil => simp [echoSteps, echoTrace, sentOn, receivedOn]
  | cons c chunks ih =>
    have h1 : echoSteps (c :: chunks)
        = ⟨.ok c, .ok (c.take 4096).length⟩ :: echoSteps chunks := rfl
    rw [h1]
    simp only [echoTrace, List.cons_append, List.nil_append, sentOn, receivedOn, SysRet.val,
      Int.toNat_ofNat, List.take_length, List.map_cons, List.flatten_cons, ↓reduceIte, ih.1,
      List.nil_append]
    exact ⟨congrArg _ ih.1, congrArg _ ih.2⟩

/-! ### Teardown -/

/-- The state after `handleClientDisconnect` of a key whose handle is valid, on a
created multiplexer. -/
theorem handleClientDisconnect_eq (self : EpollServer) (w : World) (fd : Int) (sock : Socket)
    (hfind : self.clients_.find fd = some sock) (hv : sock.fd_ ≠ -1)
    (hcreated : self.epoll_.is_created_ = true) (hfd : 0 ≤ fd) :
    handleClientDisconnect self w fd =
      ({ self with clients_ := self.clients_.erase fd },
       { interest := w.interest.filter (fun e => e.1 != fd)
         trace := w.trace ++ [Syscall.epoll_ctl_del self.epoll_.epoll_fd_ fd,
                              Syscall.close sock.fd_]
         errno := if w.registered fd then w.errno else ENOENT }) := by
  simp [handleClientDisconnect, hfind, Epoll.remove_snd _ w fd hcreated hfd, Socket.destroy,
    Socket.close, hv, World.call]

/-- The method `handleClientDisconnect` tears the client down, also after system calls
that left the interest list alone. -/
theorem handleClientDisconnect_tornDown (self : EpollServer) (w w1 : World) (fd : Int)
    (sock : Socket) (mid : List Syscall)
    (hfind : self.clients_.find fd = some sock) (hv : sock.fd_ ≠ -1)
    (hcreated : self.epoll_.is_created_ = true) (hfd : 0 ≤ fd)
    (hint : w1.interest = w.interest) (htr : w1.trace = w.trace ++ mid) :
    TornDown self w fd sock (handleClientDisconnect self w1 fd).1
      (handleClientDisconnect self w1 fd).2 := by
  rw [handleClientDisconnect_eq self w1 fd sock hfind hv hcreated hfd]
  refine ⟨ClientMap.find_erase_self _ _, ?_, ⟨mid, ?_⟩, rfl,
    fun k hk => ClientMap.find_erase_ne _ _ _ hk, ?_, ?_⟩
  · simp [World.registered]
  · simp [htr]
  · simp [hint]
  · intro k m hk
    simp [hint, List.mem_filter, hk]

/-- The method `handleClientDisconnect` neither sends nor receives. -/
theorem handleClientDisconnect_sentOn (self : EpollServer) (w : World) (fd f : Int) :
    sentOn f (handleClientDisconnect self w fd).2.trace = sentOn f w.trace ∧
    receivedOn f (handleClientDisconnect self w fd).2.trace = receivedOn f w.trace := by
  unfold handleClientDisconnect
  cases self.clients_.find fd with
  | none => simp
  | some sock =>
    have hrm : ∀ w0 : World, sentOn f (self.epoll_.remove w0 fd).2.trace = sentOn f w0.trace ∧
        receivedOn f (self.epoll_.remove w0 fd).2.trace = receivedOn f w0.trace := by
      intro w0
      unfold Epoll.remove
      split
      · simp
      · split
        · simp
        · rw [show ∀ (p : Int × World), (if p.1 < 0 then (false, p.2) else (true, p.2)).2 = p.2
            from fun p => by split <;> rfl]
          rw [World.epoll_ctl_del_snd]
          simp [sentOn_append, receivedOn_append, sentOn, receivedOn]
    have hds : ∀ w0 : World, sentOn f (sock.destroy w0).trace = sentOn f w0.trace ∧
        receivedOn f (sock.destroy w0).trace = receivedOn f w0.trace := by
      intro w0
      unfold Socket.destroy Socket.close
      split <;> simp [World.call, sentOn_append, receivedOn_append, sentOn, receivedOn]
    simp only [(hds _).1, (hds _).2, (hrm _).1, (hrm _).2, and_self]

/-! ### The drain loop -/

/-- One iteration that echoes: the loop goes on, with two more system calls. -/
theorem drain_echo_step (fd : Int) (sock : Socket) (hv : sock.fd_ ≠ -1)
    (self : EpollServer) (w : World) (b : Char) (bs : List Char) (n : Nat)
    (tail : List IoStep) :
    drain fd sock self w (⟨.ok (b :: bs), .ok n⟩ :: tail)
      = drain fd sock self
          { w with trace := w.trace ++ echoTrace sock.fd_ [⟨.ok (b :: bs), .ok n⟩] } tail := by
  obtain ⟨got, hgot, hlen⟩ : ∃ got, List.take 4096 (b :: bs) = got ∧ 0 < got.length :=
    ⟨_, rfl, by simp⟩
  have hpos : (0 : Int) < (got.length : Int) := by exact_mod_cast hlen
  have hn : ¬ ((n : Int) < 0) := by omega
  rw [drain]
  simp only [Socket.recv_ok sock hv, Socket.send_ok sock hv, hgot, hpos, hn, gt_iff_lt,
    if_true, if_false, Int.toNat_ofNat, List.take_length, echoTrace, SysRet.val, World.call,
    List.append_assoc, List.cons_append, List.nil_append, List.append_nil]

/-- A run of iterations that echo: the loop goes on, with their system calls. -/
theorem drain_echo_run (fd : Int) (sock : Socket) (hv : sock.fd_ ≠ -1)
    (self : EpollServer) (pre : List IoStep) (hpre : ∀ io ∈ pre, io.isEcho = true)
    (w : World) (tail : List IoStep) :
    drain fd sock self w (pre ++ tail)
      = drain fd sock self { w with trace := w.trace ++ echoTrace sock.fd_ pre } tail := by
  induction pre generalizing w with
  | nil => simp [echoTrace]
  | cons io pre ih =>
    obtain ⟨b, bs, n, rfl⟩ := (IoStep.isEcho_iff io).1 (hpre io (by simp))
    rw [List.cons_append, drain_echo_step fd sock hv, ih (fun io h => hpre io (by simp [h]))]
    simp [echoTrace, List.append_assoc]

/-- An iteration in which `recv` returns 0 ends the loop with a teardown. -/
theorem drain_eof (fd : Int) (sock : Socket) (hv : sock.fd_ ≠ -1) (self : EpollServer)
    (w : World) (snd : SysRet) (rest : List IoStep) :
    drain fd sock self w (⟨.ok [], snd⟩ :: rest)
      = .done ((handleClientDisconnect self (w.call (.recv sock.fd_ 4096 [] 0)) fd).1,
               (handleClientDisconnect self (w.call (.recv sock.fd_ 4096 [] 0)) fd).2, rest) := by
  rw [drain]
  simp [Socket.recv_ok sock hv]

/-- An iteration in which `recv` fails ends the loop: without teardown when the test
`errno == EAGAIN && errno == EWOULDBLOCK` holds, with teardown otherwise. -/
theorem drain_err (fd : Int) (sock : Socket) (hv : sock.fd_ ≠ -1) (self : EpollServer)
    (w : World) (e : Int) (snd : SysRet) (rest : List IoStep) :
    drain fd sock self w (⟨.err e, snd⟩ :: rest)
      = if e = EAGAIN ∧ e = EWOULDBLOCK then
          .done (self, { (w.call (.recv sock.fd_ 4096 [] (-1))) with errno := e }, rest)
        else
          .done
            ((handleClientDisconnect self
                { (w.call (.recv sock.fd_ 4096 [] (-1))) with errno := e } fd).1,
             (handleClientDisconnect self
                { (w.call (.recv sock.fd_ 4096 [] (-1))) with errno := e } fd).2, rest) := by
  rw [drain]
  simp only [Socket.recv_err sock hv, handleClientError]
  by_cases h : e = EAGAIN ∧ e = EWOULDBLOCK
  · simp [h, World.call]
  · have h' : ¬ (e = EAGAIN ∧ e = EWOULDBLOCK) := h
    simp [h', World.call]

/-- An iteration in which `send` fails ends the loop with a teardown. -/
theorem drain_send_fail (fd : Int) (sock : Socket) (hv : sock.fd_ ≠ -1) (self : EpollServer)
    (w : World) (b : Char) (bs : List Char) (e : Int) (rest : List IoStep) :
    ∃ w2 : World, w2.interest = w.interest ∧
      w2.trace = w.trace ++
        [Syscall.recv sock.fd_ 4096 ((b :: bs).take 4096) (((b :: bs).take 4096).length : Int),
         Syscall.send sock.fd_ ((b :: bs).take 4096) (-1)] ∧
      drain fd sock self w (⟨.ok (b :: bs), .err e⟩ :: rest)
        = .done ((handleClientDisconnect self w2 fd).1, (handleClientDisconnect self w2 fd).2,
            rest) := by
  obtain ⟨got, hgot, hlen⟩ : ∃ got, List.take 4096 (b :: bs) = got ∧ 0 < got.length :=
    ⟨_, rfl, by simp⟩
  have hpos : (0 : Int) < (got.length : Int) := by exact_mod_cast hlen
  refine ⟨{ interest := w.interest
            trace := w.trace ++ [Syscall.recv sock.fd_ 4096 got (got.length : Int),
              Syscall.send sock.fd_ got (-1)]
            errno := e }, rfl, by simp [hgot], ?_⟩
  rw [drain]
  simp only [Socket.recv_ok sock hv, Socket.send_err sock hv, hgot, hpos, gt_iff_lt,
    if_true, Int.toNat_ofNat, List.take_length, World.call,
    List.append_assoc, List.cons_append, List.nil_append]
  simp

/-- When the loop returns, it has either left the server as it was or torn the client
down, after system calls that left the interest list alone. -/
theorem drain_done (fd : Int) (sock : Socket) (ios : List IoStep) (s : EpollServer)
    (w : World) (s1 : EpollServer) (w1 : World) (rest : List IoStep)
    (h : drain fd sock s w ios = .done (s1, w1, rest)) :
    ∃ w2 : World, w2.interest = w.interest ∧
      ((s1, w1) = (s, w2) ∨ (s1, w1) = handleClientDisconnect s w2 fd) := by
  induction ios generalizing w with
  | nil => simp [drain] at h
  | cons io ios ih =>
    rw [drain] at h
    have hr := Socket.recv_interest sock w 4096 io.recv
    generalize sock.recv w 4096 io.recv = rr at h hr
    obtain ⟨bytes_read, buffer, wr⟩ := rr
    simp only at h hr
    split at h
    · have hsd := Socket.send_interest sock wr (buffer.take bytes_read.toNat) io.send
      generalize sock.send wr (buffer.take bytes_read.toNat) io.send = sr at h hsd
      obtain ⟨bytes_sent, ws⟩ := sr
      simp only at h hsd
      split at h
      · simp only [Outcome.done.injEq, Prod.mk.injEq] at h
        refine ⟨ws, by rw [hsd, hr], Or.inr ?_⟩
        rw [← h.1, ← h.2.1]
      · obtain ⟨w2, h1, h2⟩ := ih ws h
        exact ⟨w2, by rw [h1, hsd, hr], h2⟩
    · split at h
      · simp only [Outcome.done.injEq, Prod.mk.injEq] at h
        refine ⟨wr, hr, Or.inr ?_⟩
        rw [← h.1, ← h.2.1]
      · split at h
        · split at h
          · simp only [Outcome.done.injEq, Prod.mk.injEq] at h
            exact ⟨wr, hr, Or.inl (by rw [← h.1, ← h.2.1])⟩
          · simp only [Outcome.done.injEq, Prod.mk.injEq, handleClientError] at h
            refine ⟨wr, hr, Or.inr ?_⟩
            rw [← h.1, ← h.2.1]
        · obtain ⟨w2, h1, h2⟩ := ih wr h
          exact ⟨w2, by rw [h1, hr], h2⟩

/-! ### The accept loop -/

/-- A failure of `accept`, whatever the error, ends the accept loop. -/
theorem handleNewConnection_accept_err (self : EpollServer) (hs : self.server_socket_.fd_ ≠ -1)
    (w : World) (a : AcceptStep) (e : Int) (ha : a.accept = .err e) (rest : List AcceptStep) :
    handleNewConnection self w (a :: rest)
      = .done (self, { (w.call (.accept self.server_socket_.fd_)) with errno := e }, rest) := by
  rw [handleNewConnection, ha, Socket.acceptSocket_err _ hs]
  simp [Socket.isValid, Socket.new]

/-- When `fcntl(F_GETFL)` fails the candidate is closed and the loop goes on. -/
theorem handleNewConnection_getfl_err (self : EpollServer)
    (hs : self.server_socket_.fd_ ≠ -1) (w : World) (a : AcceptStep) (v : Nat) (e : Int)
    (ha : a.accept = .ok v) (hg : a.getfl = .err e) (rest : List AcceptStep) :
    handleNewConnection self w (a :: rest)
      = handleNewConnection self
          { interest := w.interest
            trace := w.trace ++ [Syscall.accept self.server_socket_.fd_,
              Syscall.fcntl_getfl v, Syscall.close v]
            errno := e } rest := by
  have hv : ¬ ((v : Int) = -1) := by omega
  rw [handleNewConnection, ha, hg, Socket.acceptSocket_ok _ hs]
  simp [Socket.isValid, Socket.setNonBlocking, Socket.getFd, hv, World.call, World.answer,
    Socket.close, Socket.destroy]

/-- When `fcntl(F_SETFL)` fails the candidate is closed and the loop goes on. -/
theorem handleNewConnection_setfl_err (self : EpollServer)
    (hs : self.server_socket_.fd_ ≠ -1) (w : World) (a : AcceptStep) (v fl : Nat) (e : Int)
    (ha : a.accept = .ok v) (hg : a.getfl = .ok fl) (hf : a.setfl = .err e)
    (rest : List AcceptStep) :
    handleNewConnection self w (a :: rest)
      = handleNewConnection self
          { interest := w.interest
            trace := w.trace ++ [Syscall.accept self.server_socket_.fd_,
              Syscall.fcntl_getfl v, Syscall.fcntl_setfl v (fl ||| O_NONBLOCK), Syscall.close v]
            errno := e } rest := by
  have hv : ¬ ((v : Int) = -1) := by omega
  rw [handleNewConnection, ha, hg, hf, Socket.acceptSocket_ok _ hs]
  simp [Socket.isValid, Socket.setNonBlocking, Socket.getFd, hv, World.call, World.answer,
    Socket.close, Socket.destroy, SysRet.val]

/-- When the registration fails the candidate is closed and the loop goes on. -/
theorem handleNewConnection_add_fail (self : EpollServer)
    (hs : self.server_socket_.fd_ ≠ -1) (w : World) (a : AcceptStep) (v fl x : Nat)
    (ha : a.accept = .ok v) (hg : a.getfl = .ok fl) (hf : a.setfl = .ok x)
    (hfail : self.epoll_.is_created_ = false ∨ w.registered v = true ∨ ∃ e, a.ctl = .err e)
    (rest : List AcceptStep) :
    ∃ w1 : World, w1.interest = w.interest ∧
      (∃ mid, w1.trace = w.trace ++ mid ++ [Syscall.close v]) ∧
      handleNewConnection self w (a :: rest) = handleNewConnection self w1 rest := by
  have hv : ¬ ((v : Int) = -1) := by omega
  obtain ⟨h1, h2, mid, h3⟩ := Epoll.add_fail self.epoll_
    { w with trace := w.trace ++ [Syscall.accept self.server_socket_.fd_,
        Syscall.fcntl_getfl v, Syscall.fcntl_setfl v (fl ||| O_NONBLOCK)] } v clientMask a.ctl
    hfail
  refine ⟨(self.epoll_.add
    { w with trace := w.trace ++ [Syscall.accept self.server_socket_.fd_,
        Syscall.fcntl_getfl v, Syscall.fcntl_setfl v (fl ||| O_NONBLOCK)] } v clientMask
    a.ctl).2.call (Syscall.close v), ?_, ?_, ?_⟩
  · simpa [World.call] using h2
  · refine ⟨[Syscall.accept self.server_socket_.fd_, Syscall.fcntl_getfl v,
        Syscall.fcntl_setfl v (fl ||| O_NONBLOCK)] ++ mid, ?_⟩
    simp [World.call, h3]
  · rw [handleNewConnection, ha, hg, hf, Socket.acceptSocket_ok _ hs]
    simp only [Socket.isValid, Socket.setNonBlocking_ok, Socket.getFd, Socket.close,
      Socket.destroy, bne_iff_ne, ne_eq, hv, not_false_eq_true, decide_True, Bool.not_true,
      Bool.false_eq_true, if_false, if_true, Bool.not_false, not_true_eq_false, decide_False,
      World.call, List.append_assoc, List.cons_append, List.nil_append, h1]
    simp [hv]

/-- When the registration succeeds the candidate enters the table and the loop goes
on. -/
theorem handleNewConnection_registered (self : EpollServer)
    (hs : self.server_socket_.fd_ ≠ -1) (hc : self.epoll_.is_created_ = true) (w : World)
    (a : AcceptStep) (v fl x y : Nat)
    (ha : a.accept = .ok v) (hg : a.getfl = .ok fl) (hf : a.setfl = .ok x)
    (hy : a.ctl = .ok y) (hr : w.registered v = false) (rest : List AcceptStep) :
    handleNewConnection self w (a :: rest)
      = handleNewConnection
          { self with clients_ := (self.clients_.assign
              { interest := w.interest ++ [((v : Int), clientMask)]
                trace := w.trace ++ [Syscall.accept self.server_socket_.fd_,
                  Syscall.fcntl_getfl v, Syscall.fcntl_setfl v (fl ||| O_NONBLOCK),
                  Syscall.epoll_ctl_add self.epoll_.epoll_fd_ v clientMask]
                errno := w.errno } v { fd_ := (v : Int), is_non_blocking_ := true }).1 }
          (self.clients_.assign
              { interest := w.interest ++ [((v : Int), clientMask)]
                trace := w.trace ++ [Syscall.accept self.server_socket_.fd_,
                  Syscall.fcntl_getfl v, Syscall.fcntl_setfl v (fl ||| O_NONBLOCK),
                  Syscall.epoll_ctl_add self.epoll_.epoll_fd_ v clientMask]
                errno := w.errno } v { fd_ := (v : Int), is_non_blocking_ := true }).2 rest := by
  have hv : ¬ ((v : Int) = -1) := by omega
  have hadd := Epoll.add_ok self.epoll_
    { w with trace := w.trace ++ [Syscall.accept self.server_socket_.fd_,
        Syscall.fcntl_getfl v, Syscall.fcntl_setfl v (fl ||| O_NONBLOCK)] } v clientMask y hc hr
  rw [handleNewConnection, ha, hg, hf, hy, Socket.acceptSocket_ok _ hs]
  simp only [Socket.isValid, Socket.setNonBlocking_ok, Socket.getFd, World.call,
    List.append_assoc, List.cons_append, List.nil_append] at hadd ⊢
  simp only [hadd]
  simp [hv, Socket.move, Socket.destroy]

/-- After an `accept` that succeeds the loop goes on, with the same listening socket. -/
theorem handleNewConnection_step (self : EpollServer) (hs : self.server_socket_.fd_ ≠ -1)
    (w : World) (a : AcceptStep) (v : Nat) (ha : a.accept = .ok v) (rest : List AcceptStep) :
    ∃ s1 w1, handleNewConnection self w (a :: rest) = handleNewConnection s1 w1 rest ∧
      s1.server_socket_ = self.server_socket_ := by
  cases hg : a.getfl with
  | err e => exact ⟨_, _, handleNewConnection_getfl_err self hs w a v e ha hg rest, rfl⟩
  | ok fl =>
    cases hf : a.setfl with
    | err e => exact ⟨_, _, handleNewConnection_setfl_err self hs w a v fl e ha hg hf rest, rfl⟩
    | ok x =>
      by_cases hfail :
          self.epoll_.is_created_ = false ∨ w.registered v = true ∨ ∃ e, a.ctl = .err e
      · obtain ⟨w1, _, _, h⟩ := handleNewConnection_add_fail self hs w a v fl x ha hg hf hfail rest
        exact ⟨_, _, h, rfl⟩
      · simp only [not_or, Bool.not_eq_false, Bool.not_eq_true, not_exists] at hfail
        obtain ⟨hc, hr, hctl⟩ := hfail
        cases hy : a.ctl with
        | err e => exact absurd hy (hctl e)
        | ok y =>
          exact ⟨_, _, handleNewConnection_registered self hs hc w a v fl x y ha hg hf hy hr rest,
            rfl⟩

/-- The accept loop returns at the first `accept` that fails. -/
theorem handleNewConnection_returns (steps : List AcceptStep)
    (hsteps : ∀ x ∈ steps, ∃ v, x.accept = .ok v) (a : AcceptStep) (e : Int)
    (ha : a.accept = .err e) (rest : List AcceptStep) (self : EpollServer)
    (hs : self.server_socket_.fd_ ≠ -1) (w : World) :
    ∃ s1 w1, handleNewConnection self w (steps ++ a :: rest) = .done (s1, w1, rest) := by
  induction steps generalizing self w with
  | nil => exact ⟨_, _, handleNewConnection_accept_err self hs w a e ha rest⟩
  | cons x steps ih =>
    obtain ⟨v, hv⟩ := hsteps x (by simp)
    obtain ⟨s1, w1, h, hsock⟩ := handleNewConnection_step self hs w x v hv (steps ++ a :: rest)
    rw [List.cons_append, h]
    exact ih (fun x hx => hsteps x (by simp [hx])) s1 (by rw [hsock]; exact hs) w1

/-- The shape of an iteration in which every system call succeeds. -/
theorem AcceptStep.succeeds_iff (a : AcceptStep) :
    a.succeeds = true ↔ ∃ v fl x y, a = ⟨.ok v, .ok fl, .ok x, .ok y⟩ := by
  obtain ⟨r1, r2, r3, r4⟩ := a
  cases r1 <;> cases r2 <;> cases r3 <;> cases r4 <;> simp [AcceptStep.succeeds]

/-- A burst of fresh connections: the exact table and kernel state afterwards. -/
theorem burst_registers_all (steps : List AcceptStep) (hgood : ∀ a ∈ steps, a.succeeds = true)
    (hnodup : (steps.map AcceptStep.fd).Nodup) (last : AcceptStep) (e : Int)
    (hlast : last.accept = .err e) (rest : List AcceptStep)
    (self : EpollServer) (w : World) (hs : self.server_socket_.fd_ ≠ -1)
    (hc : self.epoll_.is_created_ = true)
    (hfresh : ∀ a ∈ steps, self.clients_.find a.fd = none ∧ w.registered a.fd = false) :
    ∃ w1, handleNewConnection self w (steps ++ last :: rest)
        = .done ({ self with clients_ :=
            (steps.map (fun a => (a.fd, ({ fd_ := a.fd, is_non_blocking_ := true } : Socket)))).reverse
              ++ self.clients_ }, w1, rest) ∧
      w1.interest = w.interest ++ steps.map (fun a => (a.fd, clientMask)) ∧
      w1.trace.filter Syscall.isAdd = w.trace.filter Syscall.isAdd ++
        steps.map (fun a => Syscall.epoll_ctl_add self.epoll_.epoll_fd_ a.fd clientMask) := by
  induction steps generalizing self w with
  | nil =>
    refine ⟨{ (w.call (.accept self.server_socket_.fd_)) with errno := e }, ?_, ?_, ?_⟩
    · simpa using handleNewConnection_accept_err self hs w last e hlast rest
    · simp [World.call]
    · simp [World.call, List.filter_append, Syscall.isAdd]
  | cons a steps ih =>
    obtain ⟨v, fl, x, y, rfl⟩ := (AcceptStep.succeeds_iff a).1 (hgood a (by simp))
    have hfd : AcceptStep.fd ⟨.ok v, .ok fl, .ok x, .ok y⟩ = (v : Int) := rfl
    obtain ⟨hfind, hreg⟩ := hfresh _ (List.mem_cons_self _ _)
    rw [hfd] at hfind hreg
    simp only [List.map_cons, List.nodup_cons, hfd] at hnodup
    have hstep := handleNewConnection_registered self hs hc w
      ⟨.ok v, .ok fl, .ok x, .ok y⟩ v fl x y rfl rfl rfl rfl hreg
      (steps ++ last :: rest)
    simp only [ClientMap.assign, hfind] at hstep
    rw [List.cons_append, hstep]
    obtain ⟨w1, h1, h2, h3⟩ := ih (fun a ha => hgood a (by simp [ha])) hnodup.2
      { self with clients_ := ((v : Int), { fd_ := (v : Int), is_non_blocking_ := true })
          :: self.clients_ }
      { interest := w.interest ++ [((v : Int), clientMask)]
        trace := w.trace ++ [Syscall.accept self.server_socket_.fd_,
          Syscall.fcntl_getfl v, Syscall.fcntl_setfl v (fl ||| O_NONBLOCK),
          Syscall.epoll_ctl_add self.epoll_.epoll_fd_ v clientMask]
        errno := w.errno } hs hc
      (by
        intro b hb
        have hne : ¬ ((v : Int) = b.fd) := fun h =>
          hnodup.1 (List.mem_map.2 ⟨b, hb, h.symm⟩)
        obtain ⟨hbf, hbr⟩ := hfresh b (by simp [hb])
        refine ⟨?_, ?_⟩
        · rw [ClientMap.find_cons, if_neg hne]; exact hbf
        · rw [World.registered_append, hbr]; simpa using hne)
    refine ⟨w1, ?_, ?_, ?_⟩
    · rw [h1]; simp [hfd]
    · rw [h2]; simp [hfd]
    · rw [h3]; simp [hfd, List.filter_append, Syscall.isAdd, List.filter_cons]

/-! ### Invariants of the reachable states -/

/-- The registration invariant only depends on the interest list. -/
theorem Inv_of_interest_eq (s : EpollServer) (w w1 : World) (h : Inv s w)
    (hi : w1.interest = w.interest) : Inv s w1 := by
  obtain ⟨hc, hk, hint⟩ := h
  exact ⟨hc, hk, fun k m => by rw [hi]; exact hint k m⟩

/-- The method `handleClientDisconnect` keeps the registration invariant. -/
theorem Inv_handleClientDisconnect (s : EpollServer) (w : World) (fd : Int) (h : Inv s w) :
    Inv (handleClientDisconnect s w fd).1 (handleClientDisconnect s w fd).2 := by
  obtain ⟨hc, hk, hi⟩ := h
  cases hfind : s.clients_.find fd with
  | none => simpa [handleClientDisconnect, hfind] using ⟨hc, hk, hi⟩
  | some sock =>
    have hmem : fd ∈ s.clients_.keys := by
      by_contra hcon
      rw [(ClientMap.find_eq_none_iff _ _).2 hcon] at hfind
      exact absurd hfind (by simp)
    obtain ⟨hfd, hsrv⟩ := hk fd hmem
    have hint : (handleClientDisconnect s w fd).2.interest
        = w.interest.filter (fun e => e.1 != fd) := by
      simp only [handleClientDisconnect, hfind, Socket.destroy, Socket.close]
      split <;> simp [Epoll.remove_snd _ w fd hc hfd, World.call]
    have hcl : (handleClientDisconnect s w fd).1
        = { s with clients_ := s.clients_.erase fd } := by
      simp [handleClientDisconnect, hfind]
    refine ⟨by rw [hcl]; exact hc, ?_, ?_⟩
    · intro k hk'
      rw [hcl] at hk'
      rw [hcl]
      exact hk k ((ClientMap.mem_keys_erase _ _ _).1 hk').1
    · intro k m
      rw [hint, hcl]
      simp only [List.mem_filter, bne_iff_ne, ne_eq, decide_not, Bool.not_eq_true',
        decide_eq_false_iff_not, hi k m, ClientMap.mem_keys_erase]
      constructor
      · rintro ⟨h1 | h1, hne⟩
        · exact Or.inl h1
        · exact Or.inr ⟨⟨h1.1, hne⟩, h1.2⟩
      · rintro (h1 | h1)
        · exact ⟨Or.inl h1, by rw [h1.1]; exact fun h' => hsrv h'.symm⟩
        · exact ⟨Or.inr ⟨h1.1.1, h1.2⟩, h1.1.2⟩

/-- The method `handleClientData` keeps the registration invariant. -/
theorem Inv_handleClientData (s : EpollServer) (w : World) (fd : Int) (ios rest : List IoStep)
    (s1 : EpollServer) (w1 : World) (h : Inv s w)
    (hrun : handleClientData s w fd ios = .done (s1, w1, rest)) : Inv s1 w1 := by
  unfold handleClientData at hrun
  split at hrun
  · simp only [Outcome.done.injEq, Prod.mk.injEq] at hrun
    rw [← hrun.1, ← hrun.2.1]; exact h
  · obtain ⟨w2, h1, h2 | h2⟩ := drain_done _ _ _ _ _ _ _ _ hrun
    · simp only [Prod.mk.injEq] at h2
      rw [h2.1, h2.2]; exact Inv_of_interest_eq s w w2 h h1
    · have := Inv_handleClientDisconnect s w2 fd (Inv_of_interest_eq s w w2 h h1)
      rw [← h2] at this
      exact this

/-- Registering a fresh descriptor and adding it to the table keeps the registration
invariant. -/
theorem Inv_registered (s : EpollServer) (w : World) (v : Nat) (h : Inv s w)
    (hr : w.registered v = false) :
    Inv { s with clients_ := ((v : Int), { fd_ := (v : Int), is_non_blocking_ := true })
            :: s.clients_ }
      { interest := w.interest ++ [((v : Int), clientMask)]
        trace := w.trace, errno := w.errno } := by
  obtain ⟨hc, hk, hi⟩ := h
  have hnot : ∀ m, ((v : Int), m) ∉ w.interest := by
    intro m hm
    have : w.registered v = true := (World.registered_iff _ _).2 ⟨m, hm⟩
    rw [hr] at this
    exact absurd this (by simp)
  have hsrv : (v : Int) ≠ s.server_socket_.fd_ := by
    intro heq
    exact hnot listenMask ((hi _ _).2 (Or.inl ⟨heq, rfl⟩))
  refine ⟨hc, ?_, ?_⟩
  · intro k hk'
    simp only [ClientMap.keys, List.map_cons, List.mem_cons] at hk'
    rcases hk' with rfl | hk'
    · exact ⟨by omega, hsrv⟩
    · exact hk k hk'
  · intro k m
    simp only [List.mem_append, List.mem_singleton, Prod.mk.injEq, hi k m, ClientMap.keys,
      List.map_cons, List.mem_cons, List.not_mem_nil, or_false]
    constructor
    · rintro ((h1 | h1) | h1)
      · exact Or.inl h1
      · exact Or.inr ⟨Or.inr h1.1, h1.2⟩
      · exact Or.inr ⟨Or.inl h1.1, h1.2⟩
    · rintro (h1 | ⟨h1 | h1, h2⟩)
      · exact Or.inl (Or.inl h1)
      · exact Or.inr ⟨h1, h2⟩
      · exact Or.inl (Or.inr ⟨h1, h2⟩)

/-- The method `handleNewConnection` keeps the registration invariant. -/
theorem Inv_handleNewConnection (accepts : List AcceptStep) (s : EpollServer) (w : World)
    (rest : List AcceptStep) (s1 : EpollServer) (w1 : World) (h : Inv s w)
    (hrun : handleNewConnection s w accepts = .done (s1, w1, rest)) : Inv s1 w1 := by
  induction accepts generalizing s w with
  | nil => simp [handleNewConnection] at hrun
  | cons a accepts ih =>
    by_cases hs : s.server_socket_.fd_ = -1
    · simp [handleNewConnection, Socket.acceptSocket, hs] at hrun
    · cases ha : a.accept with
      | err e =>
        rw [handleNewConnection_accept_err s hs w a e ha] at hrun
        simp only [Outcome.done.injEq, Prod.mk.injEq] at hrun
        rw [← hrun.1, ← hrun.2.1]
        exact Inv_of_interest_eq s w _ h rfl
      | ok v =>
        cases hg : a.getfl with
        | err e =>
          rw [handleNewConnection_getfl_err s hs w a v e ha hg] at hrun
          refine ih _ _ ?_ hrun
          exact Inv_of_interest_eq s w _ h rfl
        | ok fl =>
          cases hf : a.setfl with
          | err e =>
            rw [handleNewConnection_setfl_err s hs w a v fl e ha hg hf] at hrun
            refine ih _ _ ?_ hrun
            exact Inv_of_interest_eq s w _ h rfl
          | ok x =>
            by_cases hfail :
                s.epoll_.is_created_ = false ∨ w.registered v = true ∨ ∃ e, a.ctl = .err e
            · obtain ⟨w2, h1, _, h3⟩ :=
                handleNewConnection_add_fail s hs w a v fl x ha hg hf hfail accepts
              rw [h3] at hrun
              exact ih s w2 (Inv_of_interest_eq s w _ h h1) hrun
            · simp only [not_or, Bool.not_eq_false, Bool.not_eq_true, not_exists] at hfail
              obtain ⟨hc, hr, hctl⟩ := hfail
              cases hy : a.ctl with
              | err e => exact absurd hy (hctl e)
              | ok y =>
                have hfind : s.clients_.find v = none := by
                  rw [ClientMap.find_eq_none_iff]
                  intro hmem
                  have hreg : w.registered v = true :=
                    (World.registered_iff _ _).2 ⟨clientMask, (h.2.2 _ _).2 (Or.inr ⟨hmem, rfl⟩)⟩
                  rw [hr] at hreg
                  exact absurd hreg (by simp)
                rw [handleNewConnection_registered s hs hc w a v fl x y ha hg hf hy hr] at hrun
                simp only [ClientMap.assign, hfind] at hrun
                refine ih _ _ ?_ hrun
                exact Inv_of_interest_eq _ _ _ (Inv_registered s w v h hr) rfl

/-- The state after a `start` that returns `true`. -/
theorem start_success (w0 : World) (o : StartStep) (s : EpollServer) (w : World)
    (h : EpollServer.new.start w0 o = (true, s, w)) :
    ∃ (v : Nat) (d : Nat),
      s = { server_socket_ := { fd_ := (v : Int), is_non_blocking_ := true }
            epoll_ := { epoll_fd_ := (d : Int), is_created_ := true }
            running_ := true, clients_ := [] } ∧
      w.interest = [((v : Int), listenMask)] := by
  obtain ⟨r1, r2, r3, r4, r5, r6, r7, r8⟩ := o
  cases r1 with
  | err e => simp [start, EpollServer.new, Socket.createSocket, Socket.new, SysRet.val] at h
  | ok v =>
    have hv : ¬ ((v : Int) = -1) := by omega
    have hv0 : ¬ ((v : Int) < 0) := by omega
    cases r2 with
    | err e =>
      simp [start, EpollServer.new, Socket.createSocket, Socket.new, SysRet.val, hv] at h
    | ok v2 =>
      have hv2 : ¬ ((v2 : Int) < 0) := by omega
      cases r3 with
      | err e =>
        simp [start, EpollServer.new, Socket.createSocket, Socket.new, SysRet.val, hv, hv2,
          Socket.setNonBlocking] at h
      | ok fl =>
        cases r4 with
        | err e =>
          simp [start, EpollServer.new, Socket.createSocket, Socket.new, SysRet.val, hv, hv2,
            Socket.setNonBlocking] at h
        | ok v4 =>
          have hv4 : ¬ ((v4 : Int) < 0) := by omega
          cases r5 with
          | err e =>
            simp [start, EpollServer.new, Socket.createSocket, Socket.new, SysRet.val, hv, hv2,
              hv4, Socket.setNonBlocking, Socket.bindSocket] at h
          | ok v5 =>
            have hv5 : ¬ ((v5 : Int) < 0) := by omega
            cases r6 with
            | err e =>
              simp [start, EpollServer.new, Socket.createSocket, Socket.new, SysRet.val, hv,
                hv2, hv4, hv5, Socket.setNonBlocking, Socket.bindSocket,
                Socket.listenSocket] at h
            | ok v6 =>
              have hv6 : ¬ ((v6 : Int) < 0) := by omega
              cases r7 with
              | err e =>
                simp [start, EpollServer.new, Socket.createSocket, Socket.new, SysRet.val, hv,
                  hv2, hv4, hv5, hv6, Socket.setNonBlocking, Socket.bindSocket,
                  Socket.listenSocket, Epoll.create, Epoll.new, World.epoll_create1] at h
              | ok d =>
                have hd : ¬ ((d : Int) < 0) := by omega
                cases r8 with
                | err e =>
                  simp [start, EpollServer.new, Socket.createSocket, Socket.new, SysRet.val, hv,
                    hv0, hv2, hv4, hv5, hv6, hd, Socket.setNonBlocking, Socket.bindSocket,
                    Socket.listenSocket, Epoll.create, Epoll.new, World.epoll_create1,
                    Epoll.add, World.epoll_ctl_add, World.registered, World.call,
                    World.answer, Socket.getFd] at h
                | ok v8 =>
                  simp [start, EpollServer.new, Socket.createSocket, Socket.new, SysRet.val, hv,
                    hv0, hv2, hv4, hv5, hv6, hd, Socket.setNonBlocking, Socket.bindSocket,
                    Socket.listenSocket, Epoll.create, Epoll.new, World.epoll_create1,
                    Epoll.add, World.epoll_ctl_add, World.registered, World.call,
                    World.answer, Socket.getFd] at h
                  refine ⟨v, d, h.1.symm, ?_⟩
                  rw [← h.2]

/-- A successful `start` establishes the registration invariant. -/
theorem Inv_start (w0 : World) (o : StartStep) (s : EpollServer) (w : World)
    (h : EpollServer.new.start w0 o = (true, s, w)) : Inv s w := by
  obtain ⟨v, d, rfl, hi⟩ := start_success w0 o s w h
  refine ⟨rfl, ?_, ?_⟩
  · intro k hk
    simp [ClientMap.keys] at hk
  · intro k m
    simp [hi, ClientMap.keys]

/-- Every reachable state satisfies the registration invariant. -/
theorem Inv_of_reachable (s : EpollServer) (w : World) (h : Reachable s w) : Inv s w := by
  induction h with
  | start w0 o s w hstart => exact Inv_start w0 o s w hstart
  | newConnection s w accepts rest s1 w1 _ hrun ih =>
    exact Inv_handleNewConnection accepts s w rest s1 w1 ih hrun
  | clientData s w fd ios rest s1 w1 _ hrun ih =>
    exact Inv_handleClientData s w fd ios rest s1 w1 ih hrun
  | clientError s w fd _ ih => exact Inv_handleClientDisconnect s w fd ih
  | clientDisconnect s w fd _ ih => exact Inv_handleClientDisconnect s w fd ih

/-- The method `handleClientDisconnect` keeps the ownership invariant. -/
theorem Owns_handleClientDisconnect (s : EpollServer) (w : World) (fd : Int) (h : Owns s) :
    Owns (handleClientDisconnect s w fd).1 := by
  unfold handleClientDisconnect
  cases s.clients_.find fd with
  | none => exact h
  | some sock =>
    intro e he
    exact h e (List.mem_of_mem_filter he)

/-- The method `handleClientData` keeps the ownership invariant. -/
theorem Owns_handleClientData (s : EpollServer) (w : World) (fd : Int) (ios rest : List IoStep)
    (s1 : EpollServer) (w1 : World) (h : Owns s)
    (hrun : handleClientData s w fd ios = .done (s1, w1, rest)) : Owns s1 := by
  unfold handleClientData at hrun
  split at hrun
  · simp only [Outcome.done.injEq, Prod.mk.injEq] at hrun
    rw [← hrun.1]; exact h
  · obtain ⟨w2, _, h2 | h2⟩ := drain_done _ _ _ _ _ _ _ _ hrun
    · simp only [Prod.mk.injEq] at h2
      rw [h2.1]; exact h
    · have := Owns_handleClientDisconnect s w2 fd h
      rw [← h2] at this
      exact this

/-- Assigning a handle to its own descriptor keeps the ownership invariant. -/
theorem Owns_assign (s : EpollServer) (w : World) (v : Int) (nb : Bool) (h : Owns s) :
    Owns { s with clients_ := (s.clients_.assign w v { fd_ := v, is_non_blocking_ := nb }).1 } := by
  unfold ClientMap.assign
  cases s.clients_.find v with
  | none =>
    intro e he
    simp only [List.mem_cons] at he
    rcases he with rfl | he
    · rfl
    · exact h e he
  | some old =>
    intro e he
    simp only [List.mem_cons] at he
    rcases he with rfl | he
    · rfl
    · exact h e (List.mem_of_mem_filter he)

/-- The method `handleNewConnection` keeps the ownership invariant. -/
theorem Owns_handleNewConnection (accepts : List AcceptStep) (s : EpollServer) (w : World)
    (rest : List AcceptStep) (s1 : EpollServer) (w1 : World) (h : Owns s)
    (hrun : handleNewConnection s w accepts = .done (s1, w1, rest)) : Owns s1 := by
  induction accepts generalizing s w with
  | nil => simp [handleNewConnection] at hrun
  | cons a accepts ih =>
    by_cases hs : s.server_socket_.fd_ = -1
    · simp [handleNewConnection, Socket.acceptSocket, hs] at hrun
    · cases ha : a.accept with
      | err e =>
        rw [handleNewConnection_accept_err s hs w a e ha] at hrun
        simp only [Outcome.done.injEq, Prod.mk.injEq] at hrun
        rw [← hrun.1]
        exact h
      | ok v =>
        cases hg : a.getfl with
        | err e =>
          rw [handleNewConnection_getfl_err s hs w a v e ha hg] at hrun
          exact ih _ _ h hrun
        | ok fl =>
          cases hf : a.setfl with
          | err e =>
            rw [handleNewConnection_setfl_err s hs w a v fl e ha hg hf] at hrun
            exact ih _ _ h hrun
          | ok x =>
            by_cases hfail :
                s.epoll_.is_created_ = false ∨ w.registered v = true ∨ ∃ e, a.ctl = .err e
            · obtain ⟨w2, _, _, h3⟩ :=
                handleNewConnection_add_fail s hs w a v fl x ha hg hf hfail accepts
              rw [h3] at hrun
              exact ih s w2 h hrun
            · simp only [not_or, Bool.not_eq_false, Bool.not_eq_true, not_exists] at hfail
              obtain ⟨hc, hr, hctl⟩ := hfail
              cases hy : a.ctl with
              | err e => exact absurd hy (hctl e)
              | ok y =>
                rw [handleNewConnection_registered s hs hc w a v fl x y ha hg hf hy hr] at hrun
                exact ih _ _ (Owns_assign s _ v true h) hrun

/-- Every reachable state satisfies the ownership invariant. -/
theorem Owns_of_reachable (s : EpollServer) (w : World) (h : Reachable s w) : Owns s := by
  induction h with
  | start w0 o s w hstart =>
    obtain ⟨v, d, rfl, _⟩ := start_success w0 o s w hstart
    intro e he
    simp at he
  | newConnection s w accepts rest s1 w1 _ hrun ih =>
    exact Owns_handleNewConnection accepts s w rest s1 w1 ih hrun
  | clientData s w fd ios rest s1 w1 _ hrun ih =>
    exact Owns_handleClientData s w fd ios rest s1 w1 ih hrun
  | clientError s w fd _ ih => exact Owns_handleClientDisconnect s w fd ih
  | clientDisconnect s w fd _ ih => exact Owns_handleClientDisconnect s w fd ih

/-- In a reachable state the multiplexer is created and every key of the table is a
non-negative descriptor held by its handle: the hypotheses of the theorems on
`handleClientData` and on teardown hold for every client of a reachable state. -/
theorem reachable_client (s : EpollServer) (w : World) (h : Reachable s w) (fd : Int)
    (sock : Socket) (hfind : s.clients_.find fd = some sock) :
    s.epoll_.is_created_ = true ∧ 0 ≤ fd ∧ sock.fd_ = fd ∧ sock.fd_ ≠ -1 := by
  obtain ⟨hc, hk, _⟩ := Inv_of_reachable s w h
  have hmem := ClientMap.mem_of_find _ _ _ hfind
  have hown : sock.fd_ = fd := Owns_of_reachable s w h (fd, sock) hmem
  have hkey : fd ∈ s.clients_.keys := List.mem_map.2 ⟨(fd, sock), hmem, rfl⟩
  have hfd := (hk fd hkey).1
  exact ⟨hc, hfd, hown, by rw [hown]; omega⟩

/-- The client mask has the read, error and hangup bits. -/
theorem clientMask_bits :
    clientMask &&& EpollEvents.IN ≠ 0 ∧ clientMask &&& EpollEvents.ERR ≠ 0 ∧
      clientMask &&& EpollEvents.HUP ≠ 0 := by
  decide

/-! ### Event dispatch -/

/-- The three bits `run` looks at are single bits: 0, 3 and 4. -/
theorem EpollEvents.bit_positions :
    EpollEvents.IN = 2 ^ 0 ∧ EpollEvents.ERR = 2 ^ 3 ∧ EpollEvents.HUP = 2 ^ 4 := by
  decide

/-- The test `m & bit` of the source, for a single bit, is the test of that bit of `m`. -/
theorem and_two_pow_ne_zero (m i : Nat) : (m &&& 2 ^ i != 0) = m.testBit i := by
  cases hb : m.testBit i with
  | true =>
    have : (m &&& 2 ^ i).testBit i = true := by
      simp [Nat.testBit_and, Nat.testBit_two_pow, hb]
    have hne : m &&& 2 ^ i ≠ 0 := by
      intro h0
      rw [h0] at this
      simp at this
    simpa using hne
  | false =>
    have : m &&& 2 ^ i = 0 := by
      apply Nat.eq_of_testBit_eq
      intro j
      by_cases hj : i = j
      · subst hj; simp [Nat.testBit_and, hb]
      · simp [Nat.testBit_and, Nat.testBit_two_pow, hj]
    simp [this]

/-- The body of the event loop of `run` invokes exactly the handlers the event calls for,
in order. -/
theorem dispatch_eq_invokeAll (self : EpollServer) (w : World) (event : epoll_event)
    (accepts : List AcceptStep) (ios : List IoStep) :
    dispatch self w event accepts ios
      = invokeAll (handlersFor self.server_socket_.fd_ event) self w accepts ios := by
  have hin : (event.events &&& EpollEvents.IN != 0) = event.events.testBit 0 :=
    and_two_pow_ne_zero _ 0
  have herr : (event.events &&& EpollEvents.ERR != 0) = event.events.testBit 3 :=
    and_two_pow_ne_zero _ 3
  have hhup : (event.events &&& EpollEvents.HUP != 0) = event.events.testBit 4 :=
    and_two_pow_ne_zero _ 4
  unfold dispatch handlersFor
  simp only [hin, herr, hhup, Socket.getFd, beq_iff_eq]
  by_cases hl : event.fd = self.server_socket_.fd_
  · simp only [hl, if_true, invokeAll, Handler.invoke]
    cases handleNewConnection self w accepts with
    | done r => obtain ⟨s1, w1, a1⟩ := r; rfl
    | starved => rfl
    | thrown => rfl
  · simp only [hl, if_false]
    cases event.events.testBit 0 <;> cases event.events.testBit 3 <;>
      cases event.events.testBit 4 <;>
      simp only [if_true, if_false, Bool.false_eq_true, List.nil_append, List.append_nil,
        List.singleton_append, List.cons_append, invokeAll, Handler.invoke] <;>
      first
      | rfl
      | (cases handleClientData self w event.fd ios with
         | done r => obtain ⟨s1, w1, i1⟩ := r; rfl
         | starved => rfl
         | thrown => rfl)

/-- The method `handleClientDisconnect` leaves the listening socket alone. -/
theorem handleClientDisconnect_server_socket (s : EpollServer) (w : World) (fd : Int) :
    (handleClientDisconnect s w fd).1.server_socket_ = s.server_socket_ := by
  unfold handleClientDisconnect
  cases s.clients_.find fd <;> rfl

/-- The method `handleClientData` leaves the listening socket alone. -/
theorem handleClientData_server_socket (s : EpollServer) (w : World) (fd : Int)
    (ios rest : List IoStep) (s1 : EpollServer) (w1 : World)
    (hrun : handleClientData s w fd ios = .done (s1, w1, rest)) :
    s1.server_socket_ = s.server_socket_ := by
  unfold handleClientData at hrun
  split at hrun
  · simp only [Outcome.done.injEq, Prod.mk.injEq] at hrun
    rw [← hrun.1]
  · obtain ⟨w2, _, h2 | h2⟩ := drain_done _ _ _ _ _ _ _ _ hrun
    · simp only [Prod.mk.injEq] at h2
      rw [h2.1]
    · have := handleClientDisconnect_server_socket s w2 fd
      rw [← h2] at this
      exact this

/-- The method `handleNewConnection` leaves the listening socket alone. -/
theorem handleNewConnection_server_socket (accepts : List AcceptStep) (s : EpollServer)
    (w : World) (rest : List AcceptStep) (s1 : EpollServer) (w1 : World)
    (hrun : handleNewConnection s w accepts = .done (s1, w1, rest)) :
    s1.server_socket_ = s.server_socket_ := by
  induction accepts generalizing s w with
  | nil => simp [handleNewConnection] at hrun
  | cons a accepts ih =>
    by_cases hs : s.server_socket_.fd_ = -1
    · simp [handleNewConnection, Socket.acceptSocket, hs] at hrun
    · cases ha : a.accept with
      | err e =>
        rw [handleNewConnection_accept_err s hs w a e ha] at hrun
        simp only [Outcome.done.injEq, Prod.mk.injEq] at hrun
        rw [← hrun.1]
      | ok v =>
        obtain ⟨s2, w2, hstep, hsock⟩ := handleNewConnection_step s hs w a v ha accepts
        rw [hstep] at hrun
        rw [ih s2 w2 hrun, hsock]

/-- No handler changes the listening socket. -/
theorem Handler.invoke_server_socket (h : Handler) (s : EpollServer) (w : World)
    (accepts : List AcceptStep) (ios : List IoStep) (s1 : EpollServer) (w1 : World)
    (accepts1 : List AcceptStep) (ios1 : List IoStep)
    (hrun : h.invoke s w accepts ios = .done (s1, w1, accepts1, ios1)) :
    s1.server_socket_ = s.server_socket_ := by
  cases h with
  | accept =>
    simp only [Handler.invoke] at hrun
    split at hrun
    · rename_i s2 w2 a2 heq
      simp only [Outcome.done.injEq, Prod.mk.injEq] at hrun
      rw [← hrun.1]
      exact handleNewConnection_server_socket _ _ _ _ _ _ heq
    · exact absurd hrun (by simp)
    · exact absurd hrun (by simp)
  | readEcho fd =>
    simp only [Handler.invoke] at hrun
    split at hrun
    · rename_i s2 w2 i2 heq
      simp only [Outcome.done.injEq, Prod.mk.injEq] at hrun
      rw [← hrun.1]
      exact handleClientData_server_socket _ _ _ _ _ _ _ heq
    · exact absurd hrun (by simp)
    · exact absurd hrun (by simp)
  | errorTeardown fd =>
    simp only [Handler.invoke, Outcome.done.injEq, Prod.mk.injEq, handleClientError] at hrun
    rw [← hrun.1]
    exact handleClientDisconnect_server_socket s w fd
  | hangupTeardown fd =>
    simp only [Handler.invoke, Outcome.done.injEq, Prod.mk.injEq] at hrun
    rw [← hrun.1]
    exact handleClientDisconnect_server_socket s w fd

/-- No sequence of handlers changes the listening socket. -/
theorem invokeAll_server_socket (hs : List Handler) (s : EpollServer) (w : World)
    (accepts : List AcceptStep) (ios : List IoStep) (s1 : EpollServer) (w1 : World)
    (accepts1 : List AcceptStep) (ios1 : List IoStep)
    (hrun : invokeAll hs s w accepts ios = .done (s1, w1, accepts1, ios1)) :
    s1.server_socket_ = s.server_socket_ := by
  induction hs generalizing s w accepts ios with
  | nil =>
    simp only [invokeAll, Outcome.done.injEq, Prod.mk.injEq] at hrun
    rw [← hrun.1]
  | cons h hs ih =>
    simp only [invokeAll] at hrun
    split at hrun
    · rename_i s2 w2 a2 i2 heq
      rw [ih _ _ _ _ hrun]
      exact Handler.invoke_server_socket h s w accepts ios s2 w2 a2 i2 heq
    · exact absurd hrun (by simp)
    · exact absurd hrun (by simp)

/-- Invoking a concatenation of handlers. -/
theorem invokeAll_append (a b : List Handler) (s : EpollServer) (w : World)
    (accepts : List AcceptStep) (ios : List IoStep) :
    invokeAll (a ++ b) s w accepts ios =
      match invokeAll a s w accepts ios with
      | .done (s1, w1, accepts1, ios1) => invokeAll b s1 w1 accepts1 ios1
      | .starved => .starved
      | .thrown => .thrown := by
  induction a generalizing s w accepts ios with
  | nil => rfl
  | cons h a ih =>
    simp only [List.cons_append, invokeAll]
    cases h.invoke s w accepts ios with
    | done r => obtain ⟨s1, w1, a1, i1⟩ := r; exact ih s1 w1 a1 i1
    | starved => rfl
    | thrown => rfl

/-- The event loop of `run` invokes, for the events in order, exactly the handlers each
of them calls for. -/
theorem dispatchAll_eq_invokeAll (events : List epoll_event) (self : EpollServer) (w : World)
    (accepts : List AcceptStep) (ios : List IoStep) :
    dispatchAll self w events accepts ios
      = invokeAll (events.flatMap (handlersFor self.server_socket_.fd_)) self w accepts ios := by
  induction events generalizing self w accepts ios with
  | nil => rfl
  | cons event events ih =>
    simp only [dispatchAll, List.flatMap_cons, invokeAll_append, dispatch_eq_invokeAll]
    cases hres : invokeAll (handlersFor self.server_socket_.fd_ event) self w accepts ios with
    | done r =>
      obtain ⟨s1, w1, a1, i1⟩ := r
      simp only
      rw [ih s1 w1 a1 i1, invokeAll_server_socket _ _ _ _ _ _ _ _ _ hres]
    | starved => rfl
    | thrown => rfl

/-- The events `wait` returns on a created multiplexer are those the kernel reports. -/
theorem Epoll.wait_ok (ep : Epoll) (w : World) (events : List epoll_event)
    (hc : ep.is_created_ = true) (hlen : events.length ≤ 1024) :
    ep.wait w (.ok events) = (events, w.call (.epoll_wait ep.epoll_fd_)) := by
  simp [Epoll.wait, hc, List.take_of_length_le hlen]

/-- One iteration of the loop of `run` on a running server: the handlers of the events
`wait` returned are invoked in order, then the loop goes on. -/
theorem run_eq_invokeAll (self : EpollServer) (w : World) (r : Epoll.WaitRet)
    (waits : List Epoll.WaitRet) (accepts : List AcceptStep) (ios : List IoStep)
    (hrun : self.running_ = true) :
    run self w (r :: waits) accepts ios =
      match invokeAll ((self.epoll_.wait w r).1.flatMap (handlersFor self.server_socket_.fd_))
          self (self.epoll_.wait w r).2 accepts ios with
      | .done (s2, w2, accepts2, ios2) => run s2 w2 waits accepts2 ios2
      | .starved => .starved
      | .thrown => .thrown := by
  rw [run]
  simp only [hrun, if_true, Bool.not_true, Bool.and_false, Bool.false_eq_true, if_false,
    dispatchAll_eq_invokeAll]

/-! ### Startup -/

/-- The result of `start` on a server that is neither running nor has a multiplexer:
it returns `true` exactly when every step succeeds, `running_` becomes what it
returns, and its system calls are those of the steps up to the first that fails. -/
theorem start_trace (self : EpollServer) (w : World) (o : StartStep)
    (hrun : self.running_ = false) (hcr : self.epoll_.is_created_ = false) :
    ((self.start w o).1 = true ↔ ∀ s ∈ startStages o, s.succeeds = true) ∧
    (self.start w o).2.1.running_ = (self.start w o).1 ∧
    (self.start w o).2.2.trace
      = w.trace ++ ((performed (startStages o)).map Stage.calls).flatten := by
  obtain ⟨r1, r2, r3, r4, r5, r6, r7, r8⟩ := o
  cases r1 with
  | err e =>
    simp [start, Socket.createSocket, SysRet.val, startStages, performed, World.call,
      World.answer, hrun]
  | ok v =>
    have hv : ¬ ((v : Int) = -1) := by omega
    have hv0 : ¬ ((v : Int) < 0) := by omega
    cases r2 with
    | err e =>
      simp [start, Socket.createSocket, SysRet.val, startStages, performed, World.call,
        World.answer, hrun, hv, Socket.close]
    | ok v2 =>
      have hv2 : ¬ ((v2 : Int) < 0) := by omega
      cases r3 with
      | err e =>
        simp [start, Socket.createSocket, SysRet.val, startStages, performed, World.call,
          World.answer, hrun, hv, hv2, Socket.setNonBlocking]
      | ok fl =>
        cases r4 with
        | err e =>
          simp [start, Socket.createSocket, SysRet.val, startStages, performed, World.call,
            World.answer, hrun, hv, hv2, Socket.setNonBlocking]
        | ok v4 =>
          have hv4 : ¬ ((v4 : Int) < 0) := by omega
          cases r5 with
          | err e =>
            simp [start, Socket.createSocket, SysRet.val, startStages, performed, World.call,
              World.answer, hrun, hv, hv2, hv4, Socket.setNonBlocking, Socket.bindSocket, PORT]
          | ok v5 =>
            have hv5 : ¬ ((v5 : Int) < 0) := by omega
            cases r6 with
            | err e =>
              simp [start, Socket.createSocket, SysRet.val, startStages, performed, World.call,
                World.answer, hrun, hv, hv2, hv4, hv5, Socket.setNonBlocking, Socket.bindSocket,
                Socket.listenSocket, PORT, BACKLOG]
            | ok v6 =>
              have hv6 : ¬ ((v6 : Int) < 0) := by omega
              cases r7 with
              | err e =>
                simp [start, Socket.createSocket, SysRet.val, startStages, performed,
                  World.call, World.answer, hrun, hcr, hv, hv2, hv4, hv5, hv6,
                  Socket.setNonBlocking, Socket.bindSocket, Socket.listenSocket, Epoll.create,
                  World.epoll_create1, PORT, BACKLOG]
              | ok d =>
                have hd : ¬ ((d : Int) < 0) := by omega
                cases r8 with
                | err e =>
                  simp [start, Socket.createSocket, SysRet.val, startStages, performed,
                    World.call, World.answer, hrun, hcr, hv, hv0, hv2, hv4, hv5, hv6, hd,
                    Socket.setNonBlocking, Socket.bindSocket, Socket.listenSocket, Epoll.create,
                    World.epoll_create1, Epoll.add, World.epoll_ctl_add, World.registered,
                    Socket.getFd, PORT, BACKLOG, listenMask]
                | ok v8 =>
                  simp [start, Socket.createSocket, SysRet.val, startStages, performed,
                    World.call, World.answer, hcr, hv, hv0, hv2, hv4, hv5, hv6, hd,
                    Socket.setNonBlocking, Socket.bindSocket, Socket.listenSocket, Epoll.create,
                    World.epoll_create1, Epoll.add, World.epoll_ctl_add, World.registered,
                    Socket.getFd, PORT, BACKLOG, listenMask]

/-- When every step succeeds, every step is performed. -/
theorem performed_of_all (l : List Stage) (h : ∀ s ∈ l, s.succeeds = true) :
    performed l = l := by
  induction l with
  | nil => rfl
  | cons s l ih =>
    simp [performed, h s (by simp), ih (fun x hx => h x (by simp [hx]))]

/-- The steps performed stop at the first one that fails. -/
theorem performed_first_failure (pre : List Stage) (s : Stage) (post : List Stage)
    (hpre : ∀ x ∈ pre, x.succeeds = true) (hs : s.succeeds = false) :
    performed (pre ++ s :: post) = pre ++ [s] := by
  induction pre with
  | nil => simp [performed, hs]
  | cons x pre ih =>
    simp [performed, hpre x (by simp), ih (fun y hy => hpre y (by simp [hy]))]

/-! ### C1: echo exactness -/

/-- C1, as amended: for a client of the connection table whose handle holds a
descriptor, when `recv` returns the non-empty chunks `chunks` one after the other and
then a result that is not data (0 or an error), and every `send` takes all the bytes
it is offered, `handleClientData` returns, and the bytes the kernel took from its
`send` calls are the bytes its `recv` calls returned, in the same order: the
concatenation of the chunks, nothing added, dropped or reordered. -/
theorem echo_exact_when_sends_are_complete (self : EpollServer) (w : World) (fd : Int)
    (sock : Socket) (hfind : self.clients_.find fd = some sock) (hv : sock.fd_ ≠ -1)
    (chunks : List (List Char)) (hne : ∀ c ∈ chunks, c ≠ [])
    (last : IoStep) (hlast : last.recv = .ok [] ∨ ∃ e, last.recv = .err e)
    (rest : List IoStep) :
    ∃ s1 w1, handleClientData self w fd (echoSteps chunks ++ last :: rest) = .done (s1, w1, rest) ∧
      receivedOn sock.fd_ w1.trace
        = receivedOn sock.fd_ w.trace ++ (chunks.map (List.take 4096)).flatten ∧
      sentOn sock.fd_ w1.trace
        = sentOn sock.fd_ w.trace ++ (chunks.map (List.take 4096)).flatten := by
  have hrun := drain_echo_run fd sock hv self (echoSteps chunks)
    (echoSteps_isEcho chunks hne) w (last :: rest)
  have hs := (echoTrace_echoSteps sock.fd_ chunks).1
  have hr := (echoTrace_echoSteps sock.fd_ chunks).2
  obtain ⟨lr, ls⟩ := last
  simp only [handleClientData, hfind, hrun]
  rcases hlast with h | ⟨e, h⟩
  · simp only at h
    subst h
    rw [drain_eof fd sock hv]
    refine ⟨_, _, rfl, ?_, ?_⟩
    · rw [(handleClientDisconnect_sentOn _ _ _ _).2]
      simp [World.call, receivedOn_append, receivedOn, hr]
    · rw [(handleClientDisconnect_sentOn _ _ _ _).1]
      simp [World.call, sentOn_append, sentOn, hs]
  · simp only at h
    subst h
    rw [drain_err fd sock hv]
    split
    · refine ⟨_, _, rfl, ?_, ?_⟩
      · simp [World.call, receivedOn_append, receivedOn, hr]
      · simp [World.call, sentOn_append, sentOn, hs]
    · refine ⟨_, _, rfl, ?_, ?_⟩
      · rw [(handleClientDisconnect_sentOn _ _ _ _).2]
        simp [World.call, receivedOn_append, receivedOn, hr]
      · rw [(handleClientDisconnect_sentOn _ _ _ _).1]
        simp [World.call, sentOn_append, sentOn, hs]

/-- Witness of C1 as amended: `pi` then `ng` are received on client 5 and echoed. -/
theorem echo_exact_when_sends_are_complete_witness :
    ∃ s1 w1, handleClientData demoServer demoWorld 5
        (echoSteps ["pi".toList, "ng".toList] ++ ⟨.err EAGAIN, .ok 0⟩ :: []) = .done (s1, w1, []) ∧
      receivedOn 5 w1.trace = receivedOn 5 demoWorld.trace ++ "ping".toList ∧
      sentOn 5 w1.trace = sentOn 5 demoWorld.trace ++ "ping".toList :=
  echo_exact_when_sends_are_complete demoServer demoWorld 5 ⟨5, true⟩ (by decide) (by decide)
    ["pi".toList, "ng".toList] (by decide) ⟨.err EAGAIN, .ok 0⟩ (Or.inr ⟨EAGAIN, rfl⟩) []

/-- C1 fails as stated when `send` takes fewer bytes than it is offered: `recv`
returns the two bytes `ab`, `send` takes one and returns 1, which is not negative;
`handleClientData` goes on to the next `recv` and never offers `b` again.  Received:
`ab`; sent: `a`. -/
theorem echo_drops_unsent_bytes :
    handleClientData demoServer demoWorld 5
        [⟨.ok ['a', 'b'], .ok 1⟩, ⟨.err EAGAIN, .ok 0⟩]
      = .done (demoServer,
          { interest := demoWorld.interest
            trace := [Syscall.recv 5 4096 ['a', 'b'] 2, Syscall.send 5 ['a', 'b'] 1,
                      Syscall.recv 5 4096 [] (-1)]
            errno := EAGAIN }, []) ∧
    receivedOn 5 [Syscall.recv 5 4096 ['a', 'b'] 2, Syscall.send 5 ['a', 'b'] 1,
                  Syscall.recv 5 4096 [] (-1)] = ['a', 'b'] ∧
    sentOn 5 [Syscall.recv 5 4096 ['a', 'b'] 2, Syscall.send 5 ['a', 'b'] 1,
              Syscall.recv 5 4096 [] (-1)] = ['a'] ∧
    sentOn 5 [Syscall.recv 5 4096 ['a', 'b'] 2, Syscall.send 5 ['a', 'b'] 1,
              Syscall.recv 5 4096 [] (-1)]
      ≠ receivedOn 5 [Syscall.recv 5 4096 ['a', 'b'] 2, Syscall.send 5 ['a', 'b'] 1,
                      Syscall.recv 5 4096 [] (-1)] := by
  decide

/-! ### C2: would-block on receive -/

/-- C2: for a client of the connection table whose handle holds a descriptor, when
`recv` returns `-1` (after any number of iterations that echoed) `handleClientData`
returns, and the client is torn down, that is, no longer in the table, if and only
if `errno` is neither `EAGAIN` nor `EWOULDBLOCK`; when `errno` is `EAGAIN` or
`EWOULDBLOCK` the loop stops, the server is unchanged, the descriptor is still in
the table and the interest list is as before.  The test in the source is the
conjunction `errno == EAGAIN && errno == EWOULDBLOCK`; it decides would-block
because the two constants have the same value on Linux. -/
theorem would_block_is_not_teardown (self : EpollServer) (w : World) (fd : Int)
    (sock : Socket) (hfind : self.clients_.find fd = some sock) (hv : sock.fd_ ≠ -1)
    (pre : List IoStep) (hpre : ∀ io ∈ pre, io.isEcho = true)
    (e : Int) (snd : SysRet) (rest : List IoStep) :
    ∃ s1 w1, handleClientData self w fd (pre ++ ⟨.err e, snd⟩ :: rest) = .done (s1, w1, rest) ∧
      (s1.clients_.find fd = none ↔ (e ≠ EAGAIN ∧ e ≠ EWOULDBLOCK)) ∧
      ((e = EAGAIN ∨ e = EWOULDBLOCK) →
        s1 = self ∧ s1.clients_.find fd = some sock ∧ w1.interest = w.interest ∧
        w1.registered fd = w.registered fd) := by
  have hrun := drain_echo_run fd sock hv self pre hpre w (⟨.err e, snd⟩ :: rest)
  simp only [handleClientData, hfind, hrun]
  rw [drain_err fd sock hv]
  have heq : EWOULDBLOCK = EAGAIN := rfl
  by_cases h : e = EAGAIN
  · have hc : e = EAGAIN ∧ e = EWOULDBLOCK := ⟨h, by rw [heq]; exact h⟩
    rw [if_pos hc]
    refine ⟨_, _, rfl, ?_, ?_⟩
    · simp [hfind, h]
    · intro _
      exact ⟨rfl, hfind, rfl, rfl⟩
  · have hc : ¬ (e = EAGAIN ∧ e = EWOULDBLOCK) := fun hc => h hc.1
    rw [if_neg hc]
    refine ⟨_, _, rfl, ?_, ?_⟩
    · simp only [handleClientDisconnect, hfind]
      simp [ClientMap.find_erase_self, h, heq]
    · intro h'
      rcases h' with h' | h'
      · exact absurd h' h
      · exact absurd (heq ▸ h') h

/-- Witness of C2: `recv` on client 5 fails with `EAGAIN`. -/
theorem would_block_is_not_teardown_witness :
    ∃ s1 w1, handleClientData demoServer demoWorld 5 ([] ++ ⟨.err EAGAIN, .ok 0⟩ :: [])
        = .done (s1, w1, []) ∧
      (s1.clients_.find 5 = none ↔ (EAGAIN ≠ EAGAIN ∧ EAGAIN ≠ EWOULDBLOCK)) ∧
      ((EAGAIN = EAGAIN ∨ EAGAIN = EWOULDBLOCK) →
        s1 = demoServer ∧ s1.clients_.find 5 = some ⟨5, true⟩ ∧
        w1.interest = demoWorld.interest ∧ w1.registered 5 = demoWorld.registered 5) :=
  would_block_is_not_teardown demoServer demoWorld 5 ⟨5, true⟩ (by decide) (by decide) []
    (by simp) EAGAIN (.ok 0) []

/-! ### C3: the stop signal -/

/-- C3 (the code departs from the claim): `signalHandler` only sets the global
`stop_server`, which `run` never reads.  After the handler has run on a
running server, however many times `wait` then returns the empty result of an
interrupted `epoll_wait`, `run` does not leave its loop: it goes on to call
`wait` again. -/
theorem run_ignores_stop_signal (p : Process) (signum : Int) (n : Nat)
    (accepts : List AcceptStep) (ios : List IoStep)
    (hrun : p.server.running_ = true) :
    (signalHandler signum p).stop_server = 1 ∧
    (signalHandler signum p).run (List.replicate n (Epoll.WaitRet.err EINTR)) accepts ios
      = Outcome.starved := by
  refine ⟨rfl, ?_⟩
  have key : ∀ (n : Nat) (s : EpollServer) (w : World), s.running_ = true →
      s.run w (List.replicate n (Epoll.WaitRet.err EINTR)) accepts ios = Outcome.starved := by
    intro n
    induction n with
    | zero => intro s w hs; simp [EpollServer.run, hs]
    | succ n ih =>
      intro s w hs
      have hev : (s.epoll_.wait w (Epoll.WaitRet.err EINTR)).1 = [] := by
        unfold Epoll.wait; split <;> simp
      simp only [List.replicate_succ, EpollServer.run, hs, if_true, hev]
      simp [dispatchAll, ih _ _ hs]
  simp [Process.run, signalHandler, key n p.server p.os hrun]

/-- Witness of C3: `SIGINT` on the demonstration server, then three
interrupted waits. -/
theorem run_ignores_stop_signal_witness :
    (signalHandler SIGINT ⟨demoServer, demoWorld, 0⟩).stop_server = 1 ∧
    (signalHandler SIGINT ⟨demoServer, demoWorld, 0⟩).run
        (List.replicate 3 (Epoll.WaitRet.err EINTR)) [] [] = Outcome.starved :=
  run_ignores_stop_signal ⟨demoServer, demoWorld, 0⟩ SIGINT 3 [] [] rfl

/-! ### C4: a burst of connections -/

/-- C4: when the listening socket is valid and the multiplexer created, `accept`
yields the connections `steps` one by one and then fails, the descriptors are
pairwise distinct, none is a key of the table or registered, and set-non-blocking and
registration succeed for each, one call of `handleNewConnection` returns, the keys of
the table are the old keys and exactly those descriptors, the table has `k` more
entries, and the `EPOLL_CTL_ADD` calls it made are exactly one per descriptor, in
the order of arrival, none repeated, each with the mask `IN | ET | HUP | ERR`; the
interest list has grown by these registrations. -/
theorem accept_burst (self : EpollServer) (w : World)
    (hs : self.server_socket_.fd_ ≠ -1) (hc : self.epoll_.is_created_ = true)
    (steps : List AcceptStep) (hgood : ∀ a ∈ steps, a.succeeds = true)
    (hnodup : (steps.map AcceptStep.fd).Nodup)
    (hfresh : ∀ a ∈ steps, self.clients_.find a.fd = none ∧ w.registered a.fd = false)
    (last : AcceptStep) (hlast : last.accept.val < 0) (rest : List AcceptStep) :
    ∃ s1 w1, handleNewConnection self w (steps ++ last :: rest) = .done (s1, w1, rest) ∧
      s1.clients_.keys = (steps.map AcceptStep.fd).reverse ++ self.clients_.keys ∧
      s1.clients_.length = self.clients_.length + steps.length ∧
      w1.interest = w.interest ++ steps.map (fun a => (a.fd, clientMask)) ∧
      w1.trace.filter Syscall.isAdd = w.trace.filter Syscall.isAdd ++
        steps.map (fun a => Syscall.epoll_ctl_add self.epoll_.epoll_fd_ a.fd clientMask) ∧
      (steps.map
        (fun a => Syscall.epoll_ctl_add self.epoll_.epoll_fd_ a.fd clientMask)).Nodup := by
  obtain ⟨e, he⟩ := (SysRet.val_neg_iff _).1 hlast
  obtain ⟨w1, h1, h2, h3⟩ :=
    burst_registers_all steps hgood hnodup last e he rest self w hs hc hfresh
  refine ⟨_, w1, h1, ?_, ?_, h2, h3, ?_⟩
  · simp [ClientMap.keys, List.map_reverse, Function.comp_def]
  · simp; omega
  · have hmap : steps.map
        (fun a => Syscall.epoll_ctl_add self.epoll_.epoll_fd_ a.fd clientMask)
        = (steps.map AcceptStep.fd).map
            (fun fd => Syscall.epoll_ctl_add self.epoll_.epoll_fd_ fd clientMask) := by
      simp [List.map_map, Function.comp_def]
    rw [hmap]
    exact hnodup.map (fun a b hab => by simpa using hab)

/-- Witness of C4: the connections 7 and 8 arrive at the demonstration server. -/
theorem accept_burst_witness :
    ∃ s1 w1, handleNewConnection demoServer demoWorld
        ([⟨.ok 7, .ok 2, .ok 0, .ok 0⟩, ⟨.ok 8, .ok 2, .ok 0, .ok 0⟩]
          ++ ⟨.err EAGAIN, .ok 0, .ok 0, .ok 0⟩ :: []) = .done (s1, w1, []) ∧
      s1.clients_.keys = [8, 7, 6, 5] ∧
      s1.clients_.length = 2 + 2 ∧
      w1.interest = demoWorld.interest ++ [(7, clientMask), (8, clientMask)] ∧
      w1.trace.filter Syscall.isAdd
        = [Syscall.epoll_ctl_add 4 7 clientMask, Syscall.epoll_ctl_add 4 8 clientMask] ∧
      [Syscall.epoll_ctl_add 4 7 clientMask, Syscall.epoll_ctl_add 4 8 clientMask].Nodup :=
  accept_burst demoServer demoWorld (by decide) (by decide)
    [⟨.ok 7, .ok 2, .ok 0, .ok 0⟩, ⟨.ok 8, .ok 2, .ok 0, .ok 0⟩] (by decide) (by decide)
    (by decide) ⟨.err EAGAIN, .ok 0, .ok 0, .ok 0⟩ (by decide) []

/-! ### C5: a failed candidate -/

/-- C5, as amended: in `handleNewConnection`, a failure of set-non-blocking (first
part) or of the registration with the multiplexer (second part) for a candidate
leaves the table and the interest list as they were, closes the candidate, and the
loop goes on with the next `accept`; a failure of `accept` itself, would-block or
not, ends the call (third part); and for every sequence of outcomes the call
returns at the first `accept` that fails, having gone through every candidate
before it (fourth part). -/
theorem failed_candidate_is_closed_and_accepting_goes_on (self : EpollServer) (w : World)
    (hs : self.server_socket_.fd_ ≠ -1) :
    (∀ (a : AcceptStep) (rest : List AcceptStep) (v : Nat), a.accept = .ok v →
      (a.getfl.val < 0 ∨ (0 ≤ a.getfl.val ∧ a.setfl.val < 0)) →
      ∃ w1, handleNewConnection self w (a :: rest) = handleNewConnection self w1 rest ∧
        w1.interest = w.interest ∧ ∃ mid, w1.trace = w.trace ++ mid ++ [Syscall.close v]) ∧
    (∀ (a : AcceptStep) (rest : List AcceptStep) (v : Nat), a.accept = .ok v →
      0 ≤ a.getfl.val → 0 ≤ a.setfl.val →
      (self.epoll_.is_created_ = false ∨ w.registered v = true ∨ a.ctl.val < 0) →
      ∃ w1, handleNewConnection self w (a :: rest) = handleNewConnection self w1 rest ∧
        w1.interest = w.interest ∧ ∃ mid, w1.trace = w.trace ++ mid ++ [Syscall.close v]) ∧
    (∀ (a : AcceptStep) (rest : List AcceptStep), a.accept.val < 0 →
      ∃ w1, handleNewConnection self w (a :: rest) = .done (self, w1, rest) ∧
        w1.interest = w.interest) ∧
    (∀ (steps : List AcceptStep) (a : AcceptStep) (rest : List AcceptStep),
      (∀ x ∈ steps, 0 ≤ x.accept.val) → a.accept.val < 0 →
      ∃ s1 w1, handleNewConnection self w (steps ++ a :: rest) = .done (s1, w1, rest)) := by
  refine ⟨?_, ?_, ?_, ?_⟩
  · intro a rest v ha hfail
    rcases hfail with hg | ⟨hg, hf⟩
    · obtain ⟨e, hg⟩ := (SysRet.val_neg_iff _).1 hg
      exact ⟨_, handleNewConnection_getfl_err self hs w a v e ha hg rest, rfl,
        [Syscall.accept self.server_socket_.fd_, Syscall.fcntl_getfl v], by simp⟩
    · obtain ⟨fl, hg⟩ := (SysRet.val_nonneg_iff _).1 hg
      obtain ⟨e, hf⟩ := (SysRet.val_neg_iff _).1 hf
      exact ⟨_, handleNewConnection_setfl_err self hs w a v fl e ha hg hf rest, rfl,
        [Syscall.accept self.server_socket_.fd_, Syscall.fcntl_getfl v,
          Syscall.fcntl_setfl v (fl ||| O_NONBLOCK)], by simp⟩
  · intro a rest v ha hg hf hfail
    obtain ⟨fl, hg⟩ := (SysRet.val_nonneg_iff _).1 hg
    obtain ⟨x, hf⟩ := (SysRet.val_nonneg_iff _).1 hf
    have hfail' : self.epoll_.is_created_ = false ∨ w.registered v = true ∨
        ∃ e, a.ctl = .err e := by
      rcases hfail with h | h | h
      · exact Or.inl h
      · exact Or.inr (Or.inl h)
      · exact Or.inr (Or.inr ((SysRet.val_neg_iff _).1 h))
    obtain ⟨w1, h1, h2, h3⟩ :=
      handleNewConnection_add_fail self hs w a v fl x ha hg hf hfail' rest
    exact ⟨w1, h3, h1, h2⟩
  · intro a rest ha
    obtain ⟨e, ha⟩ := (SysRet.val_neg_iff _).1 ha
    exact ⟨_, handleNewConnection_accept_err self hs w a e ha rest, rfl⟩
  · intro steps a rest hsteps ha
    obtain ⟨e, ha⟩ := (SysRet.val_neg_iff _).1 ha
    exact handleNewConnection_returns steps
      (fun x hx => (SysRet.val_nonneg_iff _).1 (hsteps x hx)) a e ha rest self hs w

/-- Witness of C5 as amended: the candidate 7 fails at `fcntl(F_GETFL)`, the candidate
8 is accepted, then `accept` reports would-block and the call returns. -/
theorem failed_candidate_is_closed_and_accepting_goes_on_witness :
    ∃ s1 w1, handleNewConnection demoServer demoWorld
        ([⟨.ok 7, .err 9, .ok 0, .ok 0⟩, ⟨.ok 8, .ok 2, .ok 0, .ok 0⟩]
          ++ ⟨.err EAGAIN, .ok 0, .ok 0, .ok 0⟩ :: []) = .done (s1, w1, []) :=
  (failed_candidate_is_closed_and_accepting_goes_on demoServer demoWorld (by decide)).2.2.2
    [⟨.ok 7, .err 9, .ok 0, .ok 0⟩, ⟨.ok 8, .ok 2, .ok 0, .ok 0⟩]
    ⟨.err EAGAIN, .ok 0, .ok 0, .ok 0⟩ [] (by decide) (by decide)

/-- C5 fails as stated for a failure of `accept`: `accept` fails with
`ECONNABORTED` while the connection 7 is still pending; `handleNewConnection` returns
at once, the answers for the connection 7 and the would-block after it are left
unused, and 7 is not in the table. -/
theorem accept_error_ends_the_accept_loop :
    handleNewConnection demoServer demoWorld
        [⟨.err ECONNABORTED, .ok 0, .ok 0, .ok 0⟩, ⟨.ok 7, .ok 2, .ok 0, .ok 0⟩,
         ⟨.err EAGAIN, .ok 0, .ok 0, .ok 0⟩]
      = .done (demoServer,
          { interest := demoWorld.interest, trace := [Syscall.accept 3], errno := ECONNABORTED },
          [⟨.ok 7, .ok 2, .ok 0, .ok 0⟩, ⟨.err EAGAIN, .ok 0, .ok 0, .ok 0⟩]) ∧
    demoServer.clients_.find 7 = none := by
  decide

/-! ### C6: every way of closing a client -/

/-- C6: for a key `fd` of the connection table whose handle `sock` holds a
descriptor, on a created multiplexer, each of (a) `recv` returning 0, (b) `recv`
returning `-1` with an `errno` that is neither `EAGAIN` nor `EWOULDBLOCK`, (c) `send`
failing while echoing, each after any number of iterations that echoed, (d)
`handleClientError` (the `ERR` event) and (e) `handleClientDisconnect` (the `HUP`
event) leaves `fd` absent from the table and from the interest list, with the
descriptor of the handle closed, and every other table entry and registration
unchanged. -/
theorem every_close_removes_the_client (self : EpollServer) (w : World) (fd : Int)
    (sock : Socket) (hfind : self.clients_.find fd = some sock) (hv : sock.fd_ ≠ -1)
    (hcreated : self.epoll_.is_created_ = true) (hfd : 0 ≤ fd) :
    (∀ (pre : List IoStep) (snd : SysRet) (rest : List IoStep),
      (∀ io ∈ pre, io.isEcho = true) →
      ∃ s1 w1, handleClientData self w fd (pre ++ ⟨.ok [], snd⟩ :: rest) = .done (s1, w1, rest) ∧
        TornDown self w fd sock s1 w1) ∧
    (∀ (pre : List IoStep) (e : Int) (snd : SysRet) (rest : List IoStep),
      (∀ io ∈ pre, io.isEcho = true) → e ≠ EAGAIN → e ≠ EWOULDBLOCK →
      ∃ s1 w1, handleClientData self w fd (pre ++ ⟨.err e, snd⟩ :: rest) = .done (s1, w1, rest) ∧
        TornDown self w fd sock s1 w1) ∧
    (∀ (pre : List IoStep) (b : Char) (bs : List Char) (e : Int) (rest : List IoStep),
      (∀ io ∈ pre, io.isEcho = true) →
      ∃ s1 w1, handleClientData self w fd (pre ++ ⟨.ok (b :: bs), .err e⟩ :: rest)
          = .done (s1, w1, rest) ∧
        TornDown self w fd sock s1 w1) ∧
    TornDown self w fd sock (handleClientError self w fd).1 (handleClientError self w fd).2 ∧
    TornDown self w fd sock (handleClientDisconnect self w fd).1
      (handleClientDisconnect self w fd).2 := by
  have htd : ∀ (w1 : World) (mid : List Syscall), w1.interest = w.interest →
      w1.trace = w.trace ++ mid →
      TornDown self w fd sock (handleClientDisconnect self w1 fd).1
        (handleClientDisconnect self w1 fd).2 :=
    fun w1 mid h1 h2 =>
      handleClientDisconnect_tornDown self w w1 fd sock mid hfind hv hcreated hfd h1 h2
  refine ⟨?_, ?_, ?_, htd w [] rfl (by simp), htd w [] rfl (by simp)⟩
  · intro pre snd rest hpre
    have hrun := drain_echo_run fd sock hv self pre hpre w (⟨.ok [], snd⟩ :: rest)
    simp only [handleClientData, hfind, hrun]
    rw [drain_eof fd sock hv]
    exact ⟨_, _, rfl, htd _ (echoTrace sock.fd_ pre ++ [Syscall.recv sock.fd_ 4096 [] 0]) rfl
      (by simp [World.call, List.append_assoc])⟩
  · intro pre e snd rest hpre h1 h2
    have hrun := drain_echo_run fd sock hv self pre hpre w (⟨.err e, snd⟩ :: rest)
    simp only [handleClientData, hfind, hrun]
    rw [drain_err fd sock hv, if_neg (fun hc => h1 hc.1)]
    exact ⟨_, _, rfl, htd _ (echoTrace sock.fd_ pre ++ [Syscall.recv sock.fd_ 4096 [] (-1)]) rfl
      (by simp [World.call, List.append_assoc])⟩
  · intro pre b bs e rest hpre
    have hrun := drain_echo_run fd sock hv self pre hpre w (⟨.ok (b :: bs), .err e⟩ :: rest)
    simp only [handleClientData, hfind, hrun]
    obtain ⟨w2, hi, ht, hd⟩ := drain_send_fail fd sock hv self
      { w with trace := w.trace ++ echoTrace sock.fd_ pre } b bs e rest
    rw [hd]
    exact ⟨_, _, rfl, htd w2 (echoTrace sock.fd_ pre ++
      [Syscall.recv sock.fd_ 4096 ((b :: bs).take 4096) (((b :: bs).take 4096).length : Int),
       Syscall.send sock.fd_ ((b :: bs).take 4096) (-1)]) hi
      (by rw [ht]; exact List.append_assoc _ _ _)⟩

/-- Witness of C6: the hangup of client 5 of the demonstration server. -/
theorem every_close_removes_the_client_witness :
    TornDown demoServer demoWorld 5 ⟨5, true⟩ (handleClientDisconnect demoServer demoWorld 5).1
      (handleClientDisconnect demoServer demoWorld 5).2 :=
  (every_close_removes_the_client demoServer demoWorld 5 ⟨5, true⟩ (by decide) (by decide)
    (by decide) (by decide)).2.2.2.2

/-! ### C7: registration mirrors the table -/

/-- C7: in every state reachable from a successful `start` by calls of
`handleNewConnection`, `handleClientData`, `handleClientError` and
`handleClientDisconnect`, whatever the kernel answers, the registered descriptors
are exactly the listening descriptor and the keys of the connection table, and every
key is registered with read, error and hangup interest, with the mask
`IN | ET | HUP | ERR` and no other. -/
theorem registration_mirrors_table (s : EpollServer) (w : World) (h : Reachable s w) :
    (∀ fd, w.registered fd = true ↔ fd = s.server_socket_.fd_ ∨ fd ∈ s.clients_.keys) ∧
    (∀ k ∈ s.clients_.keys, ∃ m, (k, m) ∈ w.interest ∧
      m &&& EpollEvents.IN ≠ 0 ∧ m &&& EpollEvents.ERR ≠ 0 ∧ m &&& EpollEvents.HUP ≠ 0) ∧
    (∀ k ∈ s.clients_.keys, ∀ m, (k, m) ∈ w.interest → m = clientMask) := by
  obtain ⟨_, hk, hi⟩ := Inv_of_reachable s w h
  refine ⟨?_, ?_, ?_⟩
  · intro fd
    rw [World.registered_iff]
    constructor
    · rintro ⟨m, hm⟩
      rcases (hi fd m).1 hm with h1 | h1
      · exact Or.inl h1.1
      · exact Or.inr h1.1
    · rintro (h1 | h1)
      · exact ⟨listenMask, (hi fd _).2 (Or.inl ⟨h1, rfl⟩)⟩
      · exact ⟨clientMask, (hi fd _).2 (Or.inr ⟨h1, rfl⟩)⟩
  · intro k hmem
    exact ⟨clientMask, (hi k _).2 (Or.inr ⟨hmem, rfl⟩), clientMask_bits⟩
  · intro k hmem m hm
    rcases (hi k m).1 hm with h1 | h1
    · exact absurd h1.1 (hk k hmem).2
    · exact h1.2

/-- Witness of C7: the state after `start` and the acceptance of the clients 5 and 6. -/
theorem registration_mirrors_table_witness :
    (∀ fd, servingWorld.registered fd = true ↔
      fd = demoServer.server_socket_.fd_ ∨ fd ∈ demoServer.clients_.keys) ∧
    (∀ k ∈ demoServer.clients_.keys, ∃ m, (k, m) ∈ servingWorld.interest ∧
      m &&& EpollEvents.IN ≠ 0 ∧ m &&& EpollEvents.ERR ≠ 0 ∧ m &&& EpollEvents.HUP ≠ 0) ∧
    (∀ k ∈ demoServer.clients_.keys, ∀ m, (k, m) ∈ servingWorld.interest → m = clientMask) :=
  registration_mirrors_table demoServer servingWorld
    (Reachable.newConnection { demoServer with clients_ := [] } startedWorld
      [⟨.ok 5, .ok 2, .ok 0, .ok 0⟩, ⟨.ok 6, .ok 2, .ok 0, .ok 0⟩,
       ⟨.err EAGAIN, .ok 0, .ok 0, .ok 0⟩] [] demoServer servingWorld
      (Reachable.start bootWorld okStart _ _ (by decide)) (by decide))

/-! ### C8: teardown of an absent descriptor -/

/-- C8: `handleClientDisconnect(fd)` on a state in which `fd` is not a key of
the connection table changes neither the server nor the operating system (no
system call, no table change), and applying it twice gives the same state as
applying it once. -/
theorem handleClientDisconnect_idempotent (self : EpollServer) (w : World) (fd : Int) :
    (self.clients_.find fd = none → handleClientDisconnect self w fd = (self, w)) ∧
    handleClientDisconnect (handleClientDisconnect self w fd).1
        (handleClientDisconnect self w fd).2 fd
      = handleClientDisconnect self w fd := by
  constructor
  · intro h
    simp [handleClientDisconnect, h]
  · cases h : self.clients_.find fd with
    | none => simp [handleClientDisconnect, h]
    | some sock =>
      simp [handleClientDisconnect, h, ClientMap.find_erase_self]

/-- Witness of C8: descriptor 7 is not in the table of the demonstration
server. -/
theorem handleClientDisconnect_idempotent_witness :
    handleClientDisconnect demoServer demoWorld 7 = (demoServer, demoWorld) :=
  (handleClientDisconnect_idempotent demoServer demoWorld 7).1 (by decide)

/-! ### C9: shutdown -/

/-- C9: on a running server `stop` leaves the connection table empty, the
listening handle invalid (descriptor `-1`), the multiplexer not created and
`running_` false; the system calls it makes are one `close` for each client
handle that holds a descriptor, then the `close` of the listening descriptor,
then that of the multiplexer.  When the handles hold distinct descriptors,
each of them is closed exactly once. -/
theorem stop_closes_everything (self : EpollServer) (w : World)
    (hrun : self.running_ = true) :
    (self.stop w).1.clients_ = [] ∧
    (self.stop w).1.server_socket_.fd_ = -1 ∧
    (self.stop w).1.epoll_.is_created_ = false ∧
    (self.stop w).1.running_ = false ∧
    (self.stop w).2.trace = w.trace ++ ClientMap.closes self.clients_
      ++ (if self.server_socket_.fd_ = -1 then [] else [Syscall.close self.server_socket_.fd_])
      ++ (if self.epoll_.is_created_ = true ∧ 0 < self.epoll_.epoll_fd_
          then [Syscall.close self.epoll_.epoll_fd_] else []) ∧
    ((self.clients_.map (fun e => e.2.fd_)).Nodup →
      ∀ e ∈ self.clients_, e.2.fd_ ≠ -1 →
        List.count (Syscall.close e.2.fd_) (ClientMap.closes self.clients_) = 1) := by
  have hclear : ∀ w1 : World, ClientMap.clear (ClientMap.closeAll self.clients_ w).1 w1 = w1 :=
    fun w1 => ClientMap.clear_of_closed _ w1 (ClientMap.closeAll_fst _ _)
  refine ⟨?_, ?_, ?_, ?_, ?_, fun hn e he hv => ClientMap.closes_count _ hn e he hv⟩
  · simp [stop, hrun]
  · simp only [stop, hrun, if_true, Socket.close]
    split <;> simp_all
  · simp only [stop, hrun, if_true, Epoll.close]
    split
    · simp_all
    · split <;> simp
  · simp [stop, hrun]
  · simp only [stop, hrun, if_true, hclear, ClientMap.closeAll_snd]
    by_cases h1 : self.server_socket_.fd_ = -1 <;>
    by_cases h2 : self.epoll_.is_created_ = true <;>
    by_cases h3 : 0 < self.epoll_.epoll_fd_ <;>
    simp [Socket.close, Epoll.close, World.call, h1, h2, h3]

/-- Witness of C9: `stop` on the demonstration server closes 6, 5, the
listening descriptor 3 and the multiplexer 4. -/
theorem stop_closes_everything_witness :
    (demoServer.stop demoWorld).1.clients_ = [] ∧
    (demoServer.stop demoWorld).2.trace
      = [Syscall.close 6, Syscall.close 5, Syscall.close 3, Syscall.close 4] := by
  have h := stop_closes_everything demoServer demoWorld rfl
  refine ⟨h.1, ?_⟩
  rw [h.2.2.2.2.1]
  decide

/-! ### C10: closing the multiplexer -/

/-- C10 (the code departs from the claim at descriptor 0): `create` accepts
the descriptor 0 as success, but the `close` that follows tests
`epoll_fd_ > 0`: it makes no system call, so descriptor 0 stays open, and it
leaves the stored descriptor at 0 instead of `-1`; only the created flag is
cleared. -/
theorem Epoll_close_leaks_descriptor_zero (w : World) :
    (Epoll.new.create w (.ok 0)).1 = true ∧
    (Epoll.new.create w (.ok 0)).2.1 = { epoll_fd_ := 0, is_created_ := true } ∧
    ((Epoll.new.create w (.ok 0)).2.1.close (Epoll.new.create w (.ok 0)).2.2).1
      = { epoll_fd_ := 0, is_created_ := false } ∧
    ((Epoll.new.create w (.ok 0)).2.1.close (Epoll.new.create w (.ok 0)).2.2).2
      = (Epoll.new.create w (.ok 0)).2.2 := by
  simp [Epoll.create, Epoll.new, Epoll.close, World.epoll_create1, World.call, World.answer,
    SysRet.val]

/-! ### C11: event-mask bits -/

/-- C11: one iteration of the loop of `run` on a running server invokes, for the
events `wait` returned and in their order, exactly the handlers of `handlersFor`,
and then goes on with the next iteration (first part); when the multiplexer is
created and the kernel reports `events`, these are the events `wait` returns
(second part).  For every such event on a descriptor other than the listening
one, with any mask, the handlers are: read-and-echo if and only if the mask has the
`IN` bit, then error teardown if and only if it has the `ERR` bit, then hangup
teardown if and only if it has the `HUP` bit, in this order, each decided by its
own bit whatever the other two are, and nothing else.  For an event on the
listening descriptor, whatever its mask, only the accept handling is invoked. -/
theorem bits_dispatched_independently (self : EpollServer) (w : World)
    (r : Epoll.WaitRet) (waits : List Epoll.WaitRet)
    (accepts : List AcceptStep) (ios : List IoStep) (hrun : self.running_ = true) :
    (run self w (r :: waits) accepts ios =
      match invokeAll ((self.epoll_.wait w r).1.flatMap (handlersFor self.server_socket_.fd_))
          self (self.epoll_.wait w r).2 accepts ios with
      | .done (s2, w2, accepts2, ios2) => run s2 w2 waits accepts2 ios2
      | .starved => .starved
      | .thrown => .thrown) ∧
    (∀ events : List epoll_event, self.epoll_.is_created_ = true → events.length ≤ 1024 →
      r = .ok events →
      (self.epoll_.wait w r).1 = events ∧
      run self w (r :: waits) accepts ios =
        match invokeAll (events.flatMap (handlersFor self.server_socket_.fd_))
            self (w.call (.epoll_wait self.epoll_.epoll_fd_)) accepts ios with
        | .done (s2, w2, accepts2, ios2) => run s2 w2 waits accepts2 ios2
        | .starved => .starved
        | .thrown => .thrown) ∧
    (EpollEvents.IN = 2 ^ 0 ∧ EpollEvents.ERR = 2 ^ 3 ∧ EpollEvents.HUP = 2 ^ 4) ∧
    (∀ event ∈ (self.epoll_.wait w r).1, event.fd = self.server_socket_.fd_ →
      handlersFor self.server_socket_.fd_ event = [Handler.accept]) ∧
    (∀ event ∈ (self.epoll_.wait w r).1, event.fd ≠ self.server_socket_.fd_ →
      (Handler.readEcho event.fd ∈ handlersFor self.server_socket_.fd_ event ↔
        event.events.testBit 0 = true) ∧
      (Handler.errorTeardown event.fd ∈ handlersFor self.server_socket_.fd_ event ↔
        event.events.testBit 3 = true) ∧
      (Handler.hangupTeardown event.fd ∈ handlersFor self.server_socket_.fd_ event ↔
        event.events.testBit 4 = true) ∧
      List.Sublist (handlersFor self.server_socket_.fd_ event)
        [Handler.readEcho event.fd, Handler.errorTeardown event.fd,
         Handler.hangupTeardown event.fd]) := by
  refine ⟨run_eq_invokeAll self w r waits accepts ios hrun, ?_, EpollEvents.bit_positions,
    ?_, ?_⟩
  · intro events hc hlen hr
    have hw := Epoll.wait_ok self.epoll_ w events hc hlen
    subst hr
    refine ⟨by rw [hw], ?_⟩
    rw [run_eq_invokeAll self w _ waits accepts ios hrun, hw]
  · intro event _ hl
    simp [handlersFor, hl]
  · intro event _ hl
    simp only [handlersFor, hl, if_false]
    cases event.events.testBit 0 <;> cases event.events.testBit 3 <;>
      cases event.events.testBit 4 <;> simp

/-- Witness of C11: `wait` reports the mask `IN | HUP` on client 5 and the mask `ERR`
on the listening descriptor 3; `run` invokes read-and-echo and hangup teardown for
client 5, no error teardown, and then the accept handling. -/
theorem bits_dispatched_independently_witness :
    run demoServer demoWorld
        (.ok [⟨EpollEvents.IN ||| EpollEvents.HUP, 5⟩, ⟨EpollEvents.ERR, 3⟩] :: []) []
        [⟨.err EAGAIN, .ok 0⟩]
      = (match invokeAll
            [Handler.readEcho 5, Handler.hangupTeardown 5, Handler.accept]
            demoServer (demoWorld.call (.epoll_wait 4)) [] [⟨.err EAGAIN, .ok 0⟩] with
        | .done (s2, w2, accepts2, ios2) => run s2 w2 [] accepts2 ios2
        | .starved => .starved
        | .thrown => .thrown) :=
  ((bits_dispatched_independently demoServer demoWorld
    (.ok [⟨EpollEvents.IN ||| EpollEvents.HUP, 5⟩, ⟨EpollEvents.ERR, 3⟩]) [] []
    [⟨.err EAGAIN, .ok 0⟩] rfl).2.1 _ rfl (by decide) rfl).2

/-! ### C12: startup -/

/-- C12: on a server that is not running and has no multiplexer yet, `start` returns
`true` and sets `running_` if and only if all six steps succeed: create socket, set
non-blocking, bind to port 8080, listen with backlog 128, create multiplexer,
register the listening descriptor with `IN | ET`; its system calls are then those
of the six steps, in order.  At the first step that fails, `start` returns `false`,
leaves `running_` false, and its system calls are those of the steps before and of
the failing step: none of a later step. -/
theorem start_all_or_nothing (self : EpollServer) (w : World) (o : StartStep)
    (hrun : self.running_ = false) (hcr : self.epoll_.is_created_ = false) :
    (((self.start w o).1 = true ∧ (self.start w o).2.1.running_ = true) ↔
      ∀ s ∈ startStages o, s.succeeds = true) ∧
    ((∀ s ∈ startStages o, s.succeeds = true) →
      (self.start w o).2.2.trace = w.trace ++ ((startStages o).map Stage.calls).flatten) ∧
    (∀ (pre : List Stage) (s : Stage) (post : List Stage),
      startStages o = pre ++ s :: post → (∀ x ∈ pre, x.succeeds = true) → s.succeeds = false →
      (self.start w o).1 = false ∧ (self.start w o).2.1.running_ = false ∧
      (self.start w o).2.2.trace = w.trace ++ (pre.map Stage.calls).flatten ++ s.calls) := by
  obtain ⟨hiff, hr, htr⟩ := start_trace self w o hrun hcr
  refine ⟨?_, ?_, ?_⟩
  · constructor
    · rintro ⟨h1, _⟩
      exact hiff.1 h1
    · intro h
      exact ⟨hiff.2 h, by rw [hr]; exact hiff.2 h⟩
  · intro h
    rw [htr, performed_of_all _ h]
  · intro pre s post hsplit hpre hs
    have hfalse : (self.start w o).1 = false := by
      cases hres : (self.start w o).1 with
      | false => rfl
      | true =>
        have := hiff.1 hres s (by rw [hsplit]; simp)
        rw [hs] at this
        exact absurd this (by simp)
    refine ⟨hfalse, by rw [hr]; exact hfalse, ?_⟩
    rw [htr, hsplit, performed_first_failure pre s post hpre hs]
    simp [List.append_assoc]

/-- Witness of C12: with the answers `okStart` the fresh server starts, with the eight
system calls of the six steps. -/
theorem start_all_or_nothing_witness :
    (EpollServer.new.start bootWorld okStart).1 = true ∧
    (EpollServer.new.start bootWorld okStart).2.1.running_ = true ∧
    (EpollServer.new.start bootWorld okStart).2.2.trace
      = [Syscall.socket, Syscall.setsockopt 3, Syscall.fcntl_getfl 3,
         Syscall.fcntl_setfl 3 2050, Syscall.bind 3 8080, Syscall.listen 3 128,
         Syscall.epoll_create1, Syscall.epoll_ctl_add 4 3 (EpollEvents.IN ||| EpollEvents.ET)] := by
  have h := start_all_or_nothing EpollServer.new bootWorld okStart rfl rfl
  have hall : ∀ s ∈ startStages okStart, s.succeeds = true := by decide
  refine ⟨(h.1.2 hall).1, (h.1.2 hall).2, ?_⟩
  rw [h.2.1 hall]
  decide

end EpollProject
